import Mathlib

/-!
Verification development for the ataraxis-transport-layer-mc packet codec.

The definitions below are a shallow embedding of the C++ sources:
 - `EncodePayload` / `DecodePayload` embed `COBSProcessor::EncodePayload` and
   `COBSProcessor::DecodePayload` from cobs_processor.h;
 - the CRC functions embed the CRC codec (the crc_processor.h file itself is
   not part of the available sources, so those functions are modelled from the
   specification, section 4.2);
 - the `TL` namespace embeds the TransportLayer class from transport_layer.h.

Byte buffers are embedded as `List Nat`; machine-integer wrap-around is made
explicit with `% 2 ^ 16` (uint16_t) or `% 2 ^ 8` (uint8_t) where it matters.
-/

/-- Reads byte `i` of a buffer, with the C-array convention that the caller
never reads out of bounds (out-of-bounds reads return 0 here). -/
def bget (l : List Nat) (i : Nat) : Nat := l.getD i 0

theorem bget_set_self {l : List Nat} {i : Nat} (h : i < l.length) (a : Nat) :
    bget (l.set i a) i = a := by
  simp [bget, List.getD, List.getElem?_set_self, h]

theorem bget_set_ne (l : List Nat) {i j : Nat} (h : i ≠ j) (a : Nat) :
    bget (l.set i a) j = bget l j := by
  simp [bget, List.getD, List.getElem?_set_ne h]

theorem bget_eq_zero_of_le_length {l : List Nat} {i : Nat} (h : l.length ≤ i) :
    bget l i = 0 := by
  simp [bget, List.getD, List.getElem?_eq_none h]

/-- Result of a COBSProcessor method call: the mutated buffer, the
`cobs_status` byte code, and the uint16 return value. -/
structure CobsResult where
  buffer : List Nat
  status : Nat
  ret : Nat
deriving DecidableEq, Repr

/-- Index of the payload_size byte (kPayloadSizeIndex template default). -/
def kPayloadSizeIndex : Nat := 1

/-- Index of the COBS overhead byte (kOverheadByteIndex template default). -/
def kOverheadByteIndex : Nat := 2

/-- First index of the payload region (kOverheadByteIndex + 1). -/
def kPayloadStartIndex : Nat := 3

/-- Status codes of the kCOBSProcessorCodes enumeration
(axtlmc_shared_assets.h). -/
def kEncoderTooSmallPayloadSize : Nat := 12

/-- kCOBSProcessorCodes::kEncoderTooLargePayloadSize. -/
def kEncoderTooLargePayloadSize : Nat := 13

/-- kCOBSProcessorCodes::kEncoderPacketLargerThanBuffer. -/
def kEncoderPacketLargerThanBuffer : Nat := 14

/-- kCOBSProcessorCodes::kPayloadAlreadyEncoded. -/
def kPayloadAlreadyEncoded : Nat := 15

/-- kCOBSProcessorCodes::kPayloadEncoded. -/
def kPayloadEncoded : Nat := 16

/-- kCOBSProcessorCodes::kDecoderTooSmallPacketSize. -/
def kDecoderTooSmallPacketSize : Nat := 17

/-- kCOBSProcessorCodes::kDecoderTooLargePacketSize. -/
def kDecoderTooLargePacketSize : Nat := 18

/-- kCOBSProcessorCodes::kDecoderPacketLargerThanBuffer. -/
def kDecoderPacketLargerThanBuffer : Nat := 19

/-- kCOBSProcessorCodes::kDecoderUnableToFindDelimiter. -/
def kDecoderUnableToFindDelimiter : Nat := 20

/-- kCOBSProcessorCodes::kDecoderDelimiterFoundTooEarly. -/
def kDecoderDelimiterFoundTooEarly : Nat := 21

/-- kCOBSProcessorCodes::kPacketAlreadyDecoded. -/
def kPacketAlreadyDecoded : Nat := 22

/-- kCOBSProcessorCodes::kPayloadDecoded. -/
def kPayloadDecoded : Nat := 23

/-- The reverse encoding loop of `COBSProcessor::EncodePayload`
(`for (uint16_t i = payload_end_index; i >= kPayloadStartIndex; --i)`).
`encodeScan d delimIdx lo cnt buf last` visits indices
`lo + cnt - 1, ..., lo` in decreasing order; every cell holding the
delimiter value `d` is overwritten with the distance to the previously
rewritten cell (`last`), or to `delimIdx` when none was rewritten yet
(`last = 0`), and `last` is updated to the visited index. -/
def encodeScan (d delimIdx lo : Nat) : Nat → List Nat → Nat → List Nat × Nat
  | 0, buf, last => (buf, last)
  | cnt + 1, buf, last =>
    if bget buf (lo + cnt) = d then
      encodeScan d delimIdx lo cnt
        (buf.set (lo + cnt) (if last = 0 then delimIdx - (lo + cnt) else last - (lo + cnt)))
        (lo + cnt)
    else
      encodeScan d delimIdx lo cnt buf last

/-- Embedding of `COBSProcessor::EncodePayload` (cobs_processor.h). The
buffer plays the role of `payload_buffer` (its length is the template
parameter `buffer_size`), `d` is `delimiter_byte_value`. -/
def EncodePayload (buf : List Nat) (d : Nat) : CobsResult :=
  let payload_size := bget buf kPayloadSizeIndex
  let minimum_required_buffer_size := payload_size + kOverheadByteIndex + 2
  if payload_size < 1 then ⟨buf, kEncoderTooSmallPayloadSize, 0⟩
  else if 254 < payload_size then ⟨buf, kEncoderTooLargePayloadSize, 0⟩
  else if buf.length < minimum_required_buffer_size then
    ⟨buf, kEncoderPacketLargerThanBuffer, 0⟩
  else if bget buf kOverheadByteIndex ≠ 0 then ⟨buf, kPayloadAlreadyEncoded, 0⟩
  else
    let payload_end_index := payload_size + kOverheadByteIndex
    let delimIdx := payload_end_index + 1
    let st := encodeScan d delimIdx kPayloadStartIndex payload_size (buf.set delimIdx d) 0
    let buf2 :=
      if st.2 ≠ 0 then st.1.set kOverheadByteIndex (st.2 - kOverheadByteIndex)
      else st.1.set kOverheadByteIndex (delimIdx - kOverheadByteIndex)
    ⟨buf2, kPayloadEncoded, minimum_required_buffer_size - kOverheadByteIndex⟩

/-- The decoding loop of `COBSProcessor::DecodePayload`
(`while (read_index < kMinimumRequiredBufferSize) ...`). The `fuel`
argument only forces structural termination; the C++ loop performs at
most `minReq` iterations (each iteration either advances `read_index`,
or writes `d` at `read_index` so that the following iteration exits),
so all callers pass more than enough fuel for the fuel-exhaustion
branch to be unreachable. -/
def decodeLoop (d delimIdx pSize minReq : Nat) : Nat → List Nat → Nat → CobsResult
  | 0, buf, _ => ⟨buf, kDecoderUnableToFindDelimiter, 0⟩
  | fuel + 1, buf, ri =>
    if ri < minReq then
      if bget buf ri = d then
        if ri = delimIdx then ⟨buf, kPayloadDecoded, pSize⟩
        else ⟨buf, kDecoderDelimiterFoundTooEarly, 0⟩
      else
        decodeLoop d delimIdx pSize minReq fuel (buf.set ri d) (ri + bget buf ri)
    else ⟨buf, kDecoderUnableToFindDelimiter, 0⟩

/-- Embedding of `COBSProcessor::DecodePayload` (cobs_processor.h). The
buffer plays the role of `packet_buffer`, `d` is `delimiter_byte_value`. -/
def DecodePayload (buf : List Nat) (d : Nat) : CobsResult :=
  let kPayloadSize := bget buf kPayloadSizeIndex
  let kPacketSize := kPayloadSize + 2
  let kMinimumRequiredBufferSize := kPayloadSize + kOverheadByteIndex + 2
  let kDelimiterIndex := kPacketSize + 1
  if kPacketSize < 3 then ⟨buf, kDecoderTooSmallPacketSize, 0⟩
  else if 256 < kPacketSize then ⟨buf, kDecoderTooLargePacketSize, 0⟩
  else if buf.length < kMinimumRequiredBufferSize then
    ⟨buf, kDecoderPacketLargerThanBuffer, 0⟩
  else if bget buf kOverheadByteIndex = 0 then ⟨buf, kPacketAlreadyDecoded, 0⟩
  else
    decodeLoop d kDelimiterIndex kPayloadSize kMinimumRequiredBufferSize
      (2 * kMinimumRequiredBufferSize + 2)
      (buf.set kOverheadByteIndex 0)
      (kOverheadByteIndex + bget buf kOverheadByteIndex)

example :
    EncodePayload [129, 10, 0, 1, 0, 3, 0, 0, 0, 7, 0, 9, 10, 22] 0 =
      ⟨[129, 10, 2, 1, 2, 3, 1, 1, 2, 7, 3, 9, 10, 0], 16, 12⟩ := by decide

example :
    DecodePayload [129, 10, 2, 1, 2, 3, 1, 1, 2, 7, 3, 9, 10, 0] 0 =
      ⟨[129, 10, 0, 1, 0, 3, 0, 0, 0, 7, 0, 9, 10, 0], 23, 10⟩ := by decide

example : (EncodePayload [129, 2, 0, 1, 1, 5] 1).buffer = [129, 2, 1, 1, 1, 1] := by decide

example : (DecodePayload [129, 2, 1, 1, 1, 1] 1).status = 21 := by decide

/-- First index `j` in the half-open range `[lo, lo + cnt)` whose buffer
value equals `d`, if any. Used to state what the encoder stores in each
rewritten cell (the distance to the next delimiter occurrence). -/
def findDelim (B : List Nat) (d : Nat) : Nat → Nat → Option Nat
  | _, 0 => none
  | lo, cnt + 1 => if bget B lo = d then some lo else findDelim B d (lo + 1) cnt

theorem findDelim_congr {B1 B2 : List Nat} {d : Nat} :
    ∀ cnt lo, (∀ j, lo ≤ j → j < lo + cnt → bget B1 j = bget B2 j) →
      findDelim B1 d lo cnt = findDelim B2 d lo cnt := by
  intro cnt
  induction cnt with
  | zero => intro lo _; rfl
  | succ n ih =>
    intro lo h
    have h0 : bget B1 lo = bget B2 lo := h lo (Nat.le_refl _) (by omega)
    simp only [findDelim, h0]
    by_cases hc : bget B2 lo = d
    · simp [hc]
    · simp only [hc, if_false]
      exact ih (lo + 1) fun j hj1 hj2 => h j (by omega) (by omega)

theorem findDelim_snoc_some {B : List Nat} {d : Nat} :
    ∀ cnt lo j, findDelim B d lo cnt = some j → findDelim B d lo (cnt + 1) = some j := by
  intro cnt
  induction cnt with
  | zero => intro lo j h; simp [findDelim] at h
  | succ n ih =>
    intro lo j h
    simp only [findDelim] at h ⊢
    by_cases hc : bget B lo = d
    · simp [hc] at h ⊢; exact h
    · simp only [hc, if_false] at h ⊢
      exact ih (lo + 1) j h

theorem findDelim_snoc_none {B : List Nat} {d : Nat} :
    ∀ cnt lo, findDelim B d lo cnt = none →
      findDelim B d lo (cnt + 1) =
        (if bget B (lo + cnt) = d then some (lo + cnt) else none) := by
  intro cnt
  induction cnt with
  | zero => intro lo _; simp [findDelim]
  | succ n ih =>
    intro lo h
    have hL : findDelim B d lo (n + 1 + 1) =
        if bget B lo = d then some lo else findDelim B d (lo + 1) (n + 1) := rfl
    have hR : findDelim B d lo (n + 1) =
        if bget B lo = d then some lo else findDelim B d (lo + 1) n := rfl
    rw [hR] at h
    by_cases hc : bget B lo = d
    · simp [hc] at h
    · rw [if_neg hc] at h
      rw [hL, if_neg hc, ih (lo + 1) h]
      have harith : lo + 1 + n = lo + (n + 1) := by omega
      rw [harith]

theorem findDelim_some {B : List Nat} {d : Nat} :
    ∀ cnt lo j, findDelim B d lo cnt = some j →
      lo ≤ j ∧ j < lo + cnt ∧ bget B j = d ∧ ∀ i, lo ≤ i → i < j → bget B i ≠ d := by
  intro cnt
  induction cnt with
  | zero => intro lo j h; simp [findDelim] at h
  | succ n ih =>
    intro lo j h
    simp only [findDelim] at h
    by_cases hc : bget B lo = d
    · simp [hc] at h
      refine ⟨by omega, by omega, ?_, ?_⟩
      · rw [← h]; exact hc
      · intro i h1 h2; omega
    · simp only [hc, if_false] at h
      obtain ⟨h1, h2, h3, h4⟩ := ih (lo + 1) j h
      refine ⟨by omega, by omega, h3, ?_⟩
      intro i hi1 hi2
      rcases Nat.eq_or_lt_of_le hi1 with he | hl
      · rw [← he]; exact hc
      · exact h4 i (by omega) hi2

theorem findDelim_none {B : List Nat} {d : Nat} :
    ∀ cnt lo, findDelim B d lo cnt = none → ∀ i, lo ≤ i → i < lo + cnt → bget B i ≠ d := by
  intro cnt
  induction cnt with
  | zero => intro lo _ i h1 h2; omega
  | succ n ih =>
    intro lo h i h1 h2
    simp only [findDelim] at h
    by_cases hc : bget B lo = d
    · simp [hc] at h
    · simp only [hc, if_false] at h
      rcases Nat.eq_or_lt_of_le h1 with he | hl
      · rw [← he]; exact hc
      · exact ih (lo + 1) h i (by omega) (by omega)

/-- Full characterization of the reverse encoding loop: the final `last`
value is the first delimiter occurrence in the scanned range (or the
incoming `last`), cells outside the range are untouched, cells inside
the range that do not hold the delimiter value are untouched, and every
cell holding the delimiter value is replaced by the distance to the next
occurrence (falling back to `delimIdx` when `last = 0`, to `last`
otherwise). -/
theorem encodeScan_spec (d delimIdx : Nat) {lo : Nat} (hlo : 0 < lo) :
    ∀ cnt (buf : List Nat) (last : Nat),
      lo + cnt ≤ buf.length →
      last = 0 ∨ lo + cnt ≤ last →
      (encodeScan d delimIdx lo cnt buf last).2 = (findDelim buf d lo cnt).getD last ∧
      (encodeScan d delimIdx lo cnt buf last).1.length = buf.length ∧
      (∀ j, j < lo ∨ lo + cnt ≤ j →
        bget (encodeScan d delimIdx lo cnt buf last).1 j = bget buf j) ∧
      (∀ j, lo ≤ j → j < lo + cnt → bget buf j ≠ d →
        bget (encodeScan d delimIdx lo cnt buf last).1 j = bget buf j) ∧
      (∀ j, lo ≤ j → j < lo + cnt → bget buf j = d →
        bget (encodeScan d delimIdx lo cnt buf last).1 j =
          (findDelim buf d (j + 1) (lo + cnt - (j + 1))).getD
            (if last = 0 then delimIdx else last) - j) := by
  intro cnt
  induction cnt with
  | zero =>
    intro buf last _ _
    refine ⟨by simp [encodeScan, findDelim], rfl, fun j _ => rfl, ?_, ?_⟩
    · intro j h1 h2; omega
    · intro j h1 h2; omega
  | succ n ih =>
    intro buf last hlen hlast
    have hlonz : lo + n ≠ 0 := by omega
    by_cases hd : bget buf (lo + n) = d
    · -- the scanned cell holds the delimiter value and is rewritten
      set v := (if last = 0 then delimIdx - (lo + n) else last - (lo + n)) with hv
      set buf1 := buf.set (lo + n) v with hbuf1
      have hstep : encodeScan d delimIdx lo (n + 1) buf last =
          encodeScan d delimIdx lo n buf1 (lo + n) := by
        simp [encodeScan, hd]
      have hlen1 : lo + n ≤ buf1.length := by
        rw [hbuf1, List.length_set]; omega
      have hlt : lo + n < buf.length := by omega
      obtain ⟨ihL, ihLen, ihOut, ihKeep, ihDel⟩ :=
        ih buf1 (lo + n) hlen1 (Or.inr (Nat.le_refl _))
      have hagree : ∀ j, lo ≤ j → j < lo + n → bget buf1 j = bget buf j := by
        intro j _ h2
        exact bget_set_ne buf (by omega) v
      have hfd1 : findDelim buf1 d lo n = findDelim buf d lo n :=
        findDelim_congr n lo hagree
      refine ⟨?_, ?_, ?_, ?_, ?_⟩
      · -- final last value
        rw [hstep, ihL, hfd1]
        rcases hcase : findDelim buf d lo n with _ | j
        · rw [findDelim_snoc_none n lo hcase, if_pos hd]
          simp
        · rw [findDelim_snoc_some n lo j hcase]
          simp
      · rw [hstep, ihLen, hbuf1, List.length_set]
      · -- untouched outside the range
        intro j hj
        rw [hstep, ihOut j (by omega)]
        exact bget_set_ne buf (by omega) v
      · -- untouched non-delimiter cells
        intro j h1 h2 h3
        have hji : j ≠ lo + n := fun hji => h3 (hji ▸ hd)
        have h2n : j < lo + n := by omega
        have hb1 : bget buf1 j = bget buf j := hagree j h1 h2n
        rw [hstep, ihKeep j h1 h2n (by rw [hb1]; exact h3), hb1]
      · -- rewritten delimiter cells
        intro j h1 h2 h3
        by_cases hji : j = lo + n
        · -- the cell processed at this step
          subst hji
          have hout : bget (encodeScan d delimIdx lo n buf1 (lo + n)).1 (lo + n) =
              bget buf1 (lo + n) := ihOut (lo + n) (by omega)
          rw [hstep, hout, hbuf1, bget_set_self hlt]
          have hrange : lo + (n + 1) - (lo + n + 1) = 0 := by omega
          rw [hrange]
          simp only [findDelim, Option.getD_none]
          rw [hv]
          by_cases hl0 : last = 0
          · rw [if_pos hl0, if_pos hl0]
          · rw [if_neg hl0, if_neg hl0]
        · -- delimiter cells strictly below the processed one
          have h2n : j < lo + n := by omega
          have hb1 : bget buf1 j = bget buf j := hagree j h1 h2n
          have hdel := ihDel j h1 h2n (by rw [hb1]; exact h3)
          rw [hstep, hdel, if_neg hlonz]
          have hinner : findDelim buf1 d (j + 1) (lo + n - (j + 1)) =
              findDelim buf d (j + 1) (lo + n - (j + 1)) := by
            refine findDelim_congr _ _ ?_
            intro i hi1 hi2
            exact bget_set_ne buf (by omega) v
          rw [hinner]
          have hsplit : lo + (n + 1) - (j + 1) = (lo + n - (j + 1)) + 1 := by omega
          rw [hsplit]
          rcases hin : findDelim buf d (j + 1) (lo + n - (j + 1)) with _ | k
          · have hend : j + 1 + (lo + n - (j + 1)) = lo + n := by omega
            rw [findDelim_snoc_none _ _ hin, hend, if_pos hd]
            simp
          · rw [findDelim_snoc_some _ _ k hin]
            simp
    · -- the scanned cell is not a delimiter occurrence and is skipped
      have hstep : encodeScan d delimIdx lo (n + 1) buf last =
          encodeScan d delimIdx lo n buf last := by
        simp [encodeScan, hd]
      obtain ⟨ihL, ihLen, ihOut, ihKeep, ihDel⟩ :=
        ih buf last (by omega) (by omega)
      refine ⟨?_, ?_, ?_, ?_, ?_⟩
      · rw [hstep, ihL]
        rcases hcase : findDelim buf d lo n with _ | j
        · rw [findDelim_snoc_none n lo hcase, if_neg hd]
        · rw [findDelim_snoc_some n lo j hcase]
      · rw [hstep, ihLen]
      · intro j hj
        rw [hstep, ihOut j (by omega)]
      · intro j h1 h2 h3
        by_cases hji : j = lo + n
        · rw [hstep, ihOut j (by omega)]
        · exact hstep ▸ ihKeep j h1 (by omega) h3
      · intro j h1 h2 h3
        have hji : j ≠ lo + n := fun hji => hd (hji ▸ h3)
        have h2n : j < lo + n := by omega
        have hdel := ihDel j h1 h2n h3
        rw [hstep, hdel]
        have hsplit : lo + (n + 1) - (j + 1) = (lo + n - (j + 1)) + 1 := by omega
        rw [hsplit]
        rcases hin : findDelim buf d (j + 1) (lo + n - (j + 1)) with _ | k
        · have hend : j + 1 + (lo + n - (j + 1)) = lo + n := by omega
          rw [findDelim_snoc_none _ _ hin, hend, if_neg hd]
        · rw [findDelim_snoc_some _ _ k hin]

/-- Closed-form characterization of a successful `EncodePayload` call:
status and return value, plus a pointwise description of the produced
buffer. `O` is the absolute index of the first delimiter occurrence in
the payload region (or the appended-delimiter index when there is none),
so the overhead byte receives `O - 2`. -/
theorem EncodePayload_spec (B : List Nat) (d psize delimIdx O : Nat)
    (hps : psize = bget B 1) (hdi : delimIdx = psize + 3)
    (hO : O = (findDelim B d 3 psize).getD delimIdx)
    (h1 : 1 ≤ psize) (h2 : psize ≤ 254) (h3 : psize + 4 ≤ B.length)
    (h4 : bget B 2 = 0) :
    (EncodePayload B d).status = kPayloadEncoded ∧
    (EncodePayload B d).ret = psize + 2 ∧
    (EncodePayload B d).buffer.length = B.length ∧
    bget (EncodePayload B d).buffer 0 = bget B 0 ∧
    bget (EncodePayload B d).buffer 1 = bget B 1 ∧
    bget (EncodePayload B d).buffer 2 = O - 2 ∧
    (∀ j, 3 ≤ j → j < delimIdx → bget B j ≠ d →
      bget (EncodePayload B d).buffer j = bget B j) ∧
    (∀ j, 3 ≤ j → j < delimIdx → bget B j = d →
      bget (EncodePayload B d).buffer j =
        (findDelim B d (j + 1) (delimIdx - (j + 1))).getD delimIdx - j) ∧
    bget (EncodePayload B d).buffer delimIdx = d ∧
    (∀ j, delimIdx < j → bget (EncodePayload B d).buffer j = bget B j) := by
  have hg1 : ¬ bget B kPayloadSizeIndex < 1 := by
    simp only [kPayloadSizeIndex]; omega
  have hg2 : ¬ 254 < bget B kPayloadSizeIndex := by
    simp only [kPayloadSizeIndex]; omega
  have hg3 : ¬ B.length < bget B kPayloadSizeIndex + kOverheadByteIndex + 2 := by
    simp only [kPayloadSizeIndex, kOverheadByteIndex]; omega
  have hg4 : ¬ bget B kOverheadByteIndex ≠ 0 := by
    simp only [kOverheadByteIndex]; omega
  have hE : EncodePayload B d =
      ⟨(fun st : List Nat × Nat =>
          if st.2 ≠ 0 then st.1.set kOverheadByteIndex (st.2 - kOverheadByteIndex)
          else st.1.set kOverheadByteIndex
            (bget B kPayloadSizeIndex + kOverheadByteIndex + 1 - kOverheadByteIndex))
        (encodeScan d (bget B kPayloadSizeIndex + kOverheadByteIndex + 1) kPayloadStartIndex
          (bget B kPayloadSizeIndex)
          (B.set (bget B kPayloadSizeIndex + kOverheadByteIndex + 1) d) 0),
        kPayloadEncoded,
        bget B kPayloadSizeIndex + kOverheadByteIndex + 2 - kOverheadByteIndex⟩ := by
    rw [EncodePayload]
    rw [if_neg hg1, if_neg hg2, if_neg hg3, if_neg hg4]
  have hps2 : bget B kPayloadSizeIndex = psize := by
    simp only [kPayloadSizeIndex]; omega
  rw [hps2] at hE
  have hdi2 : psize + kOverheadByteIndex + 1 = delimIdx := by
    simp only [kOverheadByteIndex]; omega
  rw [hdi2] at hE
  set B0 : List Nat := B.set delimIdx d with hB0
  have hB0len : B0.length = B.length := List.length_set ..
  have hdix : delimIdx < B.length := by omega
  have hB0in : ∀ j, j ≠ delimIdx → bget B0 j = bget B j := by
    intro j hj
    exact bget_set_ne B (fun he => hj he.symm) d
  have hB0di : bget B0 delimIdx = d := bget_set_self hdix d
  obtain ⟨sL, sLen, sOut, sKeep, sDel⟩ :=
    @encodeScan_spec d delimIdx kPayloadStartIndex (by simp [kPayloadStartIndex])
      psize B0 0 (by simp only [kPayloadStartIndex]; omega) (Or.inl rfl)
  set st := encodeScan d delimIdx kPayloadStartIndex psize B0 0 with hst
  have hfdB : findDelim B0 d 3 psize = findDelim B d 3 psize := by
    refine findDelim_congr _ _ ?_
    intro j hj1 hj2
    exact hB0in j (by omega)
  have hrange3 : (kPayloadStartIndex : Nat) = 3 := rfl
  rw [hrange3] at sL sOut sKeep sDel
  rw [hfdB] at sL
  -- the overhead byte value: distance to the first occurrence or to delimIdx
  have hov : (if st.2 ≠ 0 then st.1.set kOverheadByteIndex (st.2 - kOverheadByteIndex)
      else st.1.set kOverheadByteIndex (delimIdx - kOverheadByteIndex)) =
      st.1.set 2 (O - 2) := by
    rcases hfd : findDelim B d 3 psize with _ | j
    · rw [hfd] at sL
      simp only [Option.getD_none] at sL
      rw [if_neg (by rw [sL]; exact fun hcon => hcon rfl)]
      have : O = delimIdx := by rw [hO, hfd]; rfl
      rw [this]
      rfl
    · rw [hfd] at sL
      simp only [Option.getD_some] at sL
      obtain ⟨hj3, _, _, _⟩ := findDelim_some psize 3 j hfd
      rw [if_pos (by rw [sL]; omega)]
      have : O = j := by rw [hO, hfd]; rfl
      rw [this, sL]
      rfl
  rw [hE]
  simp only [hov]
  have hstLen : st.1.length = B.length := by rw [sLen, hB0len]
  have h2lt : (2 : Nat) < st.1.length := by omega
  refine ⟨by trivial, ?_, ?_, ?_, ?_, ?_, ?_, ?_, ?_, ?_⟩
  · simp only [kOverheadByteIndex]
    omega
  · simp only [List.length_set, hstLen]
  · rw [bget_set_ne _ (by omega : (2:Nat) ≠ 0), sOut 0 (by omega), hB0in 0 (by omega)]
  · rw [bget_set_ne _ (by omega : (2:Nat) ≠ 1), sOut 1 (by omega), hB0in 1 (by omega)]
  · exact bget_set_self h2lt _
  · intro j hj1 hj2 hj3
    have hB0j : bget B0 j = bget B j := hB0in j (by omega)
    rw [bget_set_ne _ (by omega : (2:Nat) ≠ j),
      sKeep j hj1 (by omega) (by rw [hB0j]; exact hj3), hB0j]
  · intro j hj1 hj2 hj3
    have hB0j : bget B0 j = bget B j := hB0in j (by omega)
    rw [bget_set_ne _ (by omega : (2:Nat) ≠ j),
      sDel j hj1 (by omega) (by rw [hB0j]; exact hj3)]
    have hinner : findDelim B0 d (j + 1) (3 + psize - (j + 1)) =
        findDelim B d (j + 1) (3 + psize - (j + 1)):= by
      refine findDelim_congr _ _ ?_
      intro i hi1 hi2
      exact hB0in i (by omega)
    rw [hinner, if_pos rfl]
    have : 3 + psize - (j + 1) = delimIdx - (j + 1) := by omega
    rw [this]
  · rw [bget_set_ne _ (by omega : (2:Nat) ≠ delimIdx), sOut delimIdx (by omega), hB0di]
  · intro j hj
    rw [bget_set_ne _ (by omega : (2:Nat) ≠ j), sOut j (by omega), hB0in j (by omega)]

/-- Walking the COBS jump chain with delimiter value 0: started at a chain
position `c` of a buffer whose cells at and above `c` still hold the
encoded distances (as produced by `EncodePayload`) and whose cells below
`c` are already restored, the decoding loop reaches the appended
delimiter and restores every remaining encoded cell to 0. -/
theorem decodeLoop_chain (B : List Nat) (psize delimIdx minReq : Nat)
    (hdi : delimIdx = psize + 3) (hmr : minReq = psize + 4)
    (hlen : minReq ≤ B.length) :
    ∀ fuel c CB,
      delimIdx + 1 ≤ c + fuel →
      (c = delimIdx ∨ (3 ≤ c ∧ c < delimIdx ∧ bget B c = 0)) →
      CB.length = B.length →
      (∀ j, j < c → bget CB j = if j = 2 then 0 else bget B j) →
      (∀ j, c ≤ j → j < delimIdx → bget B j ≠ 0 → bget CB j = bget B j) →
      (∀ j, c ≤ j → j < delimIdx → bget B j = 0 →
        bget CB j = (findDelim B 0 (j + 1) (delimIdx - (j + 1))).getD delimIdx - j) →
      bget CB delimIdx = 0 →
      (∀ j, delimIdx < j → bget CB j = bget B j) →
      ∃ RB, decodeLoop 0 delimIdx psize minReq fuel CB c = ⟨RB, kPayloadDecoded, psize⟩ ∧
        RB.length = B.length ∧
        (∀ j, j ≠ 2 → j ≠ delimIdx → bget RB j = bget B j) ∧
        bget RB 2 = 0 ∧ bget RB delimIdx = 0 := by
  intro fuel
  induction fuel with
  | zero =>
    intro c CB hfuel hchain _ _ _ _ _ _
    exfalso
    rcases hchain with h | h <;> omega
  | succ f ih =>
    intro c CB hfuel hchain hclen hlow hkeep hdel hdcell hout
    rcases hchain with hc | hc
    · -- reached the appended delimiter: the success exit
      have hlt : c < minReq := by omega
      have hdc : bget CB c = 0 := by rw [hc]; exact hdcell
      refine ⟨CB, ?_, hclen, ?_, ?_, hdcell⟩
      · simp only [decodeLoop]
        rw [if_pos hlt, if_pos hdc, if_pos hc]
      · intro j hj2 hjd
        rcases Nat.lt_or_ge j delimIdx with hj | hj
        · rw [hlow j (by omega), if_neg hj2]
        · exact hout j (by omega)
      · rw [hlow 2 (by omega), if_pos rfl]
    · -- at an interior chain position: one decoding step
      obtain ⟨hc3, hcd, hcz⟩ := hc
      have hlt : c < minReq := by omega
      set nxt := (findDelim B 0 (c + 1) (delimIdx - (c + 1))).getD delimIdx with hnxt
      have hcb : bget CB c = nxt - c := hdel c (Nat.le_refl _) hcd hcz
      have hnxt_props : c + 1 ≤ nxt ∧ nxt ≤ delimIdx ∧
          (nxt = delimIdx ∨ (nxt < delimIdx ∧ bget B nxt = 0)) ∧
          (∀ i, c + 1 ≤ i → i < nxt → bget B i ≠ 0) := by
        rcases hfd : findDelim B 0 (c + 1) (delimIdx - (c + 1)) with _ | k
        · have hnone := findDelim_none _ _ hfd
          have : nxt = delimIdx := by rw [hnxt, hfd]; rfl
          refine ⟨by omega, by omega, Or.inl this, ?_⟩
          intro i hi1 hi2
          exact hnone i hi1 (by omega)
        · obtain ⟨hk1, hk2, hk3, hk4⟩ := findDelim_some _ _ k hfd
          have : nxt = k := by rw [hnxt, hfd]; rfl
          refine ⟨by omega, by omega, Or.inr ⟨by omega, this ▸ hk3⟩, ?_⟩
          intro i hi1 hi2
          exact hk4 i hi1 (by omega)
      obtain ⟨hn1, hn2, hn3, hn4⟩ := hnxt_props
      have hcbne : bget CB c ≠ 0 := by rw [hcb]; omega
      have hstep : decodeLoop 0 delimIdx psize minReq (f + 1) CB c =
          decodeLoop 0 delimIdx psize minReq f (CB.set c 0) (c + bget CB c) := by
        simp only [decodeLoop, if_pos hlt, if_neg hcbne]
      have hri : c + bget CB c = nxt := by rw [hcb]; omega
      have hclt : c < CB.length := by omega
      -- establish the loop invariants at the next chain position
      have hres := ih nxt (CB.set c 0) (by omega)
        (by
          rcases hn3 with h | h
          · exact Or.inl h
          · exact Or.inr ⟨by omega, h.1, h.2⟩)
        (by rw [List.length_set]; exact hclen)
        (by
          intro j hj
          rcases Nat.lt_trichotomy j c with hjc | hjc | hjc
          · rw [bget_set_ne CB (by omega) 0]
            exact hlow j hjc
          · subst hjc
            rw [bget_set_self hclt 0, if_neg (by omega), hcz]
          · rw [bget_set_ne CB (by omega) 0, if_neg (by omega)]
            exact hkeep j (by omega) (by omega) (hn4 j (by omega) hj))
        (by
          intro j hj1 hj2 hj3
          rw [bget_set_ne CB (by omega) 0]
          exact hkeep j (by omega) hj2 hj3)
        (by
          intro j hj1 hj2 hj3
          rw [bget_set_ne CB (by omega) 0]
          exact hdel j (by omega) hj2 hj3)
        (by rw [bget_set_ne CB (by omega) 0]; exact hdcell)
        (by
          intro j hj
          rw [bget_set_ne CB (by omega) 0]
          exact hout j hj)
      obtain ⟨RB, hRB⟩ := hres
      exact ⟨RB, by rw [hstep, hri]; exact hRB.1, hRB.2⟩

/-- Round trip with delimiter value 0: decoding a successfully encoded
buffer restores the payload region bit for bit and returns the payload
size. -/
theorem decode_encode_roundtrip (B : List Nat) (psize : Nat)
    (hps : psize = bget B 1) (h1 : 1 ≤ psize) (h2 : psize ≤ 254)
    (h3 : psize + 4 ≤ B.length) (h4 : bget B 2 = 0) :
    (EncodePayload B 0).status = kPayloadEncoded ∧
    (EncodePayload B 0).ret = psize + 2 ∧
    (DecodePayload (EncodePayload B 0).buffer 0).status = kPayloadDecoded ∧
    (DecodePayload (EncodePayload B 0).buffer 0).ret = psize ∧
    (∀ j, 3 ≤ j → j < psize + 3 →
      bget (DecodePayload (EncodePayload B 0).buffer 0).buffer j = bget B j) := by
  set delimIdx := psize + 3 with hdi
  set O := (findDelim B 0 3 psize).getD delimIdx with hO
  obtain ⟨eStat, eRet, eLen, e0, e1, e2, eKeep, eDel, eDelim, eOut⟩ :=
    EncodePayload_spec B 0 psize delimIdx O hps hdi hO h1 h2 h3 h4
  set E := (EncodePayload B 0).buffer with hE
  -- basic facts about the first-occurrence index O
  have hOfacts : 3 ≤ O ∧ O ≤ delimIdx ∧
      (O = delimIdx ∨ (O < delimIdx ∧ bget B O = 0)) ∧
      (∀ i, 3 ≤ i → i < O → bget B i ≠ 0) := by
    rcases hfd : findDelim B 0 3 psize with _ | k
    · have hnone := findDelim_none _ _ hfd
      have hh : O = delimIdx := by rw [hO, hfd]; rfl
      refine ⟨by omega, by omega, Or.inl hh, ?_⟩
      intro i hi1 hi2
      exact hnone i hi1 (by omega)
    · obtain ⟨hk1, hk2, hk3, hk4⟩ := findDelim_some _ _ k hfd
      have hh : O = k := by rw [hO, hfd]; rfl
      refine ⟨by omega, by omega, Or.inr ⟨by omega, hh ▸ hk3⟩, ?_⟩
      intro i hi1 hi2
      exact hk4 i hi1 (by omega)
  obtain ⟨hO3, hOd, hOpos, hOleast⟩ := hOfacts
  -- unfold the guards of DecodePayload on the encoded buffer
  have hpsE : bget E kPayloadSizeIndex = psize := by
    simp only [kPayloadSizeIndex]
    rw [e1]; omega
  have hovE : bget E kOverheadByteIndex = O - 2 := e2
  have hg1 : ¬ bget E kPayloadSizeIndex + 2 < 3 := by rw [hpsE]; omega
  have hg2 : ¬ 256 < bget E kPayloadSizeIndex + 2 := by rw [hpsE]; omega
  have hg3 : ¬ E.length < bget E kPayloadSizeIndex + kOverheadByteIndex + 2 := by
    rw [hpsE, eLen]
    simp only [kOverheadByteIndex]
    omega
  have hg4 : ¬ bget E kOverheadByteIndex = 0 := by rw [hovE]; omega
  have hD : DecodePayload E 0 =
      decodeLoop 0 (bget E kPayloadSizeIndex + 2 + 1) (bget E kPayloadSizeIndex)
        (bget E kPayloadSizeIndex + kOverheadByteIndex + 2)
        (2 * (bget E kPayloadSizeIndex + kOverheadByteIndex + 2) + 2)
        (E.set kOverheadByteIndex 0)
        (kOverheadByteIndex + bget E kOverheadByteIndex) := by
    rw [DecodePayload]
    rw [if_neg hg1, if_neg hg2, if_neg hg3, if_neg hg4]
  rw [hpsE, hovE] at hD
  have hidx : (kOverheadByteIndex : Nat) = 2 := rfl
  rw [hidx] at hD
  have harith1 : psize + 2 + 1 = delimIdx := by omega
  have harith2 : psize + 2 + 2 = psize + 4 := by omega
  have harith3 : 2 + (O - 2) = O := by omega
  rw [harith1, harith2, harith3] at hD
  -- apply the chain-walk lemma starting from the overhead target O
  have h2len : (2 : Nat) < E.length := by omega
  obtain ⟨RB, hloop, hRBlen, hRBeq, hRB2, hRBd⟩ :=
    decodeLoop_chain B psize delimIdx (psize + 4) hdi rfl (by omega)
      (2 * (psize + 4) + 2) O (E.set 2 0)
      (by omega)
      (by
        rcases hOpos with h | h
        · exact Or.inl h
        · exact Or.inr ⟨hO3, h.1, h.2⟩)
      (by rw [List.length_set, eLen])
      (by
        intro j hj
        by_cases hj2 : j = 2
        · subst hj2
          rw [bget_set_self h2len 0, if_pos rfl]
        · rw [bget_set_ne E (fun hh => hj2 hh.symm) 0, if_neg hj2]
          rcases Nat.lt_or_ge j 3 with hj3 | hj3
          · interval_cases j
            · exact e0
            · exact e1
            · omega
          · exact eKeep j hj3 (by omega) (hOleast j hj3 hj))
      (by
        intro j hj1 hj2 hj3
        rw [bget_set_ne E (by omega) 0]
        exact eKeep j (by omega) hj2 hj3)
      (by
        intro j hj1 hj2 hj3
        rw [bget_set_ne E (by omega) 0]
        exact eDel j (by omega) hj2 hj3)
      (by rw [bget_set_ne E (by omega) 0]; exact eDelim)
      (by
        intro j hj
        rw [bget_set_ne E (by omega) 0]
        exact eOut j hj)
  rw [hloop] at hD
  refine ⟨eStat, eRet, by rw [hD], by rw [hD], ?_⟩
  intro j hj1 hj2
  rw [hD]
  exact hRBeq j (by omega) (by omega)

/-- C1 counterexample: with delimiter value 1 and payload [1, 1], the
encoder succeeds but produces a buffer whose encoded link bytes equal
the delimiter value, so decoding aborts with delimiter-found-too-early
and returns 0 instead of the payload size 2. -/
theorem claim_C1_counterexample :
    (EncodePayload [129, 2, 0, 1, 1, 5] 1).status = kPayloadEncoded ∧
    (EncodePayload [129, 2, 0, 1, 1, 5] 1).ret = 4 ∧
    (DecodePayload (EncodePayload [129, 2, 0, 1, 1, 5] 1).buffer 1).status =
      kDecoderDelimiterFoundTooEarly ∧
    (DecodePayload (EncodePayload [129, 2, 0, 1, 1, 5] 1).buffer 1).ret ≠ 2 := by
  decide

/-- C1 (amended to the delimiter value 0): for every buffer whose
payload-size byte holds `psize` with 1 ≤ psize ≤ 254, whose overhead
byte is 0 and which is large enough, decoding the buffer produced by a
successful `EncodePayload` with delimiter 0 restores the payload region
(indices 3 to psize + 2) bit for bit and `DecodePayload` returns
`psize`. -/
theorem claim_C1_cobs_roundtrip (B : List Nat) (psize : Nat)
    (hps : bget B 1 = psize) (h1 : 1 ≤ psize) (h2 : psize ≤ 254)
    (h3 : psize + 4 ≤ B.length) (h4 : bget B 2 = 0) :
    (EncodePayload B 0).status = kPayloadEncoded ∧
    (DecodePayload (EncodePayload B 0).buffer 0).status = kPayloadDecoded ∧
    (DecodePayload (EncodePayload B 0).buffer 0).ret = psize ∧
    ∀ j, 3 ≤ j → j < psize + 3 →
      bget (DecodePayload (EncodePayload B 0).buffer 0).buffer j = bget B j := by
  obtain ⟨hstat, _, hdstat, hdret, hregion⟩ :=
    decode_encode_roundtrip B psize hps.symm h1 h2 h3 h4
  exact ⟨hstat, hdstat, hdret, hregion⟩

/-- C1 witness at the one-byte payload [42]. -/
theorem claim_C1_witness :
    (EncodePayload [129, 1, 0, 42, 7] 0).status = kPayloadEncoded ∧
    (DecodePayload (EncodePayload [129, 1, 0, 42, 7] 0).buffer 0).status = kPayloadDecoded ∧
    (DecodePayload (EncodePayload [129, 1, 0, 42, 7] 0).buffer 0).ret = 1 ∧
    ∀ j, 3 ≤ j → j < 1 + 3 →
      bget (DecodePayload (EncodePayload [129, 1, 0, 42, 7] 0).buffer 0).buffer j =
        bget [129, 1, 0, 42, 7] j :=
  claim_C1_cobs_roundtrip [129, 1, 0, 42, 7] 1 (by decide) (by decide) (by decide)
    (by decide) (by decide)

/-- C5 counterexample: with delimiter value 1 and payload [1, 1], the
successfully encoded buffer holds the delimiter value both in the
overhead byte (index 2) and inside the encoded payload region (index 3),
not only in the trailing delimiter slot (index 5). -/
theorem claim_C5_counterexample :
    (EncodePayload [129, 2, 0, 1, 1, 5] 1).status = kPayloadEncoded ∧
    bget (EncodePayload [129, 2, 0, 1, 1, 5] 1).buffer 2 = 1 ∧
    bget (EncodePayload [129, 2, 0, 1, 1, 5] 1).buffer 3 = 1 := by
  decide

/-- After a successful `EncodePayload` with delimiter 0, every byte from
the overhead byte through the last payload byte is nonzero and the
appended delimiter slot holds the single 0 of the encoded region. -/
theorem EncodePayload_region_spec (B : List Nat) (psize : Nat)
    (hps : bget B 1 = psize) (h1 : 1 ≤ psize) (h2 : psize ≤ 254)
    (h3 : psize + 4 ≤ B.length) (h4 : bget B 2 = 0) :
    (EncodePayload B 0).status = kPayloadEncoded ∧
    (∀ j, 2 ≤ j → j < psize + 3 → bget (EncodePayload B 0).buffer j ≠ 0) ∧
    bget (EncodePayload B 0).buffer (psize + 3) = 0 := by
  set delimIdx := psize + 3 with hdi
  set O := (findDelim B 0 3 psize).getD delimIdx with hO
  obtain ⟨eStat, _, _, _, _, e2, eKeep, eDel, eDelim, _⟩ :=
    EncodePayload_spec B 0 psize delimIdx O hps.symm hdi hO h1 h2 h3 h4
  have hO3 : 3 ≤ O := by
    rcases hfd : findDelim B 0 3 psize with _ | k
    · have hh : O = delimIdx := by rw [hO, hfd]; rfl
      omega
    · obtain ⟨hk1, _, _, _⟩ := findDelim_some _ _ k hfd
      have hh : O = k := by rw [hO, hfd]; rfl
      omega
  refine ⟨eStat, ?_, eDelim⟩
  intro j hj2 hjd
  rcases Nat.eq_or_lt_of_le hj2 with hj | hj
  · rw [← hj, e2]
    omega
  · by_cases hbj : bget B j = 0
    · rw [eDel j (by omega) (by omega) hbj]
      rcases hfd : findDelim B 0 (j + 1) (delimIdx - (j + 1)) with _ | k
      · simp only [hfd, Option.getD_none]
        omega
      · obtain ⟨hk1, _, _, _⟩ := findDelim_some _ _ k hfd
        simp only [hfd, Option.getD_some]
        omega
    · rw [eKeep j (by omega) (by omega) hbj]
      exact hbj

/-- C5 (amended to the delimiter value 0): after a successful
`EncodePayload` with delimiter 0, no byte from the overhead byte
(index 2) through the last payload byte (index psize + 2) equals 0; the
appended delimiter slot at index psize + 3 is the single 0 byte of the
encoded region. -/
theorem claim_C5_encoded_region_free_of_delimiter (B : List Nat) (psize : Nat)
    (hps : bget B 1 = psize) (h1 : 1 ≤ psize) (h2 : psize ≤ 254)
    (h3 : psize + 4 ≤ B.length) (h4 : bget B 2 = 0) :
    (EncodePayload B 0).status = kPayloadEncoded ∧
    (∀ j, 2 ≤ j → j < psize + 3 → bget (EncodePayload B 0).buffer j ≠ 0) ∧
    bget (EncodePayload B 0).buffer (psize + 3) = 0 :=
  EncodePayload_region_spec B psize hps h1 h2 h3 h4

/-- C5 witness at the payload [1, 0, 3]. -/
theorem claim_C5_witness :
    (EncodePayload [129, 3, 0, 1, 0, 3, 9, 9] 0).status = kPayloadEncoded ∧
    (∀ j, 2 ≤ j → j < 3 + 3 → bget (EncodePayload [129, 3, 0, 1, 0, 3, 9, 9] 0).buffer j ≠ 0) ∧
    bget (EncodePayload [129, 3, 0, 1, 0, 3, 9, 9] 0).buffer (3 + 3) = 0 :=
  claim_C5_encoded_region_free_of_delimiter [129, 3, 0, 1, 0, 3, 9, 9] 3 (by decide)
    (by decide) (by decide) (by decide) (by decide)

/-- C9: after a successful `EncodePayload` with any delimiter value, the
overhead byte (index 2) is never 0 — it holds the distance to the first
delimiter occurrence or to the appended delimiter, both at least 1. -/
theorem claim_C9_overhead_nonzero (B : List Nat) (d psize : Nat)
    (hps : bget B 1 = psize) (h1 : 1 ≤ psize) (h2 : psize ≤ 254)
    (h3 : psize + 4 ≤ B.length) (h4 : bget B 2 = 0) :
    (EncodePayload B d).status = kPayloadEncoded ∧
    bget (EncodePayload B d).buffer 2 ≠ 0 := by
  set delimIdx := psize + 3 with hdi
  set O := (findDelim B d 3 psize).getD delimIdx with hO
  obtain ⟨eStat, _, _, _, _, e2, _, _, _, _⟩ :=
    EncodePayload_spec B d psize delimIdx O hps.symm hdi hO h1 h2 h3 h4
  have hO3 : 3 ≤ O := by
    rcases hfd : findDelim B d 3 psize with _ | k
    · have hh : O = delimIdx := by rw [hO, hfd]; rfl
      omega
    · obtain ⟨hk1, _, _, _⟩ := findDelim_some _ _ k hfd
      have hh : O = k := by rw [hO, hfd]; rfl
      omega
  rw [e2]
  exact ⟨eStat, by omega⟩

/-- C9 witness at payload [7] and delimiter 0. -/
theorem claim_C9_witness :
    (EncodePayload [129, 1, 0, 7, 7] 0).status = kPayloadEncoded ∧
    bget (EncodePayload [129, 1, 0, 7, 7] 0).buffer 2 ≠ 0 :=
  claim_C9_overhead_nonzero [129, 1, 0, 7, 7] 0 1 (by decide) (by decide) (by decide)
    (by decide) (by decide)

/-- C10: a successful `EncodePayload` modifies only the overhead byte
(index 2), the payload cells whose prior value equals the delimiter, and
the appended delimiter slot (index psize + 3); every other byte — start
byte, payload_size byte, payload bytes differing from the delimiter, and
everything past the delimiter slot — keeps its prior value. -/
theorem claim_C10_frame_effect (B : List Nat) (d psize : Nat)
    (hps : bget B 1 = psize) (h1 : 1 ≤ psize) (h2 : psize ≤ 254)
    (h3 : psize + 4 ≤ B.length) (h4 : bget B 2 = 0) :
    (EncodePayload B d).status = kPayloadEncoded ∧
    (EncodePayload B d).buffer.length = B.length ∧
    ∀ j, j ≠ 2 → j ≠ psize + 3 → ¬(3 ≤ j ∧ j < psize + 3 ∧ bget B j = d) →
      bget (EncodePayload B d).buffer j = bget B j := by
  set delimIdx := psize + 3 with hdi
  set O := (findDelim B d 3 psize).getD delimIdx with hO
  obtain ⟨eStat, _, eLen, e0, e1, _, eKeep, _, _, eOut⟩ :=
    EncodePayload_spec B d psize delimIdx O hps.symm hdi hO h1 h2 h3 h4
  refine ⟨eStat, eLen, ?_⟩
  intro j hj2 hjd hjp
  rcases Nat.lt_or_ge j 3 with hj3 | hj3
  · interval_cases j
    · exact e0
    · exact e1
    · omega
  · rcases Nat.lt_or_ge j delimIdx with hjlt | hjge
    · by_cases hbj : bget B j = d
      · exact absurd ⟨hj3, hjlt, hbj⟩ hjp
      · exact eKeep j hj3 hjlt hbj
    · exact eOut j (by omega)

/-- C10 witness at payload [1, 0, 3] and delimiter 0. -/
theorem claim_C10_witness :
    (EncodePayload [129, 3, 0, 1, 0, 3, 9, 9] 0).status = kPayloadEncoded ∧
    (EncodePayload [129, 3, 0, 1, 0, 3, 9, 9] 0).buffer.length =
      ([129, 3, 0, 1, 0, 3, 9, 9] : List Nat).length ∧
    ∀ j, j ≠ 2 → j ≠ 3 + 3 → ¬(3 ≤ j ∧ j < 3 + 3 ∧ bget [129, 3, 0, 1, 0, 3, 9, 9] j = 0) →
      bget (EncodePayload [129, 3, 0, 1, 0, 3, 9, 9] 0).buffer j =
        bget [129, 3, 0, 1, 0, 3, 9, 9] j :=
  claim_C10_frame_effect [129, 3, 0, 1, 0, 3, 9, 9] 0 3 (by decide) (by decide) (by decide)
    (by decide) (by decide)

/-- The decoding loop never writes the overhead byte slot: its read index
starts at or above the payload start index 3 and never decreases. -/
theorem decodeLoop_preserves_index2 (d delimIdx pSize minReq : Nat) :
    ∀ fuel buf ri, 3 ≤ ri →
      bget (decodeLoop d delimIdx pSize minReq fuel buf ri).buffer 2 = bget buf 2 := by
  intro fuel
  induction fuel with
  | zero => intro buf ri _; rfl
  | succ f ih =>
    intro buf ri hri
    simp only [decodeLoop]
    by_cases h1 : ri < minReq
    · rw [if_pos h1]
      by_cases h2 : bget buf ri = d
      · rw [if_pos h2]
        by_cases h3 : ri = delimIdx
        · rw [if_pos h3]
        · rw [if_neg h3]
      · rw [if_neg h2, ih (buf.set ri d) (ri + bget buf ri) (by omega),
          bget_set_ne buf (by omega) d]
    · rw [if_neg h1]

/-- C6 counterexample: a buffer whose payload_size byte is 0 makes
`DecodePayload` exit through the packet-too-small error path before the
overhead byte (here 7) is zeroed, so not every exit path marks the
buffer as consumed. -/
theorem claim_C6_counterexample :
    (DecodePayload [5, 0, 7, 0, 0] 0).status = kDecoderTooSmallPacketSize ∧
    bget (DecodePayload [5, 0, 7, 0, 0] 0).buffer 2 = 7 := by
  decide

/-- C6 (amended): on every exit path reached once the four validation
checks pass — that is, whenever decoding is actually attempted — the
overhead byte (index 2) is set to 0 before `DecodePayload` returns,
including the delimiter-shape error exits. -/
theorem claim_C6_overhead_zeroed (B : List Nat) (d psize : Nat)
    (hps : bget B 1 = psize) (h1 : 1 ≤ psize) (h2 : psize ≤ 254)
    (h3 : psize + 4 ≤ B.length) (h4 : bget B 2 ≠ 0) :
    bget (DecodePayload B d).buffer 2 = 0 := by
  have hg1 : ¬ bget B kPayloadSizeIndex + 2 < 3 := by
    simp only [kPayloadSizeIndex]; omega
  have hg2 : ¬ 256 < bget B kPayloadSizeIndex + 2 := by
    simp only [kPayloadSizeIndex]; omega
  have hg3 : ¬ B.length < bget B kPayloadSizeIndex + kOverheadByteIndex + 2 := by
    simp only [kPayloadSizeIndex, kOverheadByteIndex]; omega
  have hg4 : ¬ bget B kOverheadByteIndex = 0 := by
    simp only [kOverheadByteIndex]; omega
  rw [DecodePayload]
  rw [if_neg hg1, if_neg hg2, if_neg hg3, if_neg hg4]
  rw [decodeLoop_preserves_index2 _ _ _ _ _ _ _
    (by simp only [kOverheadByteIndex]; omega)]
  have h2len : (2 : Nat) < B.length := by omega
  simpa only [kOverheadByteIndex] using bget_set_self h2len 0

/-- C6 witness: decoding an encoded one-byte packet zeroes the overhead
byte. -/
theorem claim_C6_witness :
    bget (DecodePayload [129, 1, 2, 42, 0] 0).buffer 2 = 0 :=
  claim_C6_overhead_zeroed [129, 1, 2, 42, 0] 0 1 (by decide) (by decide) (by decide)
    (by decide) (by decide)

/-- C7: decode error precedence exactly as implemented — a zero
payload_size byte reports packet-too-small first; a 255 payload_size
byte reports packet-too-large next; an in-range size with a too-small
buffer reports packet-larger-than-buffer next; and once those checks
pass, a zero overhead byte reports already-decoded regardless of the
remaining buffer contents (in particular even when the contents would
also trigger delimiter-found-too-early), leaving the buffer unchanged. -/
theorem claim_C7_decode_error_precedence (B : List Nat) (d : Nat) :
    (bget B 1 = 0 → DecodePayload B d = ⟨B, kDecoderTooSmallPacketSize, 0⟩) ∧
    (255 ≤ bget B 1 → DecodePayload B d = ⟨B, kDecoderTooLargePacketSize, 0⟩) ∧
    (1 ≤ bget B 1 → bget B 1 ≤ 254 → B.length < bget B 1 + 4 →
      DecodePayload B d = ⟨B, kDecoderPacketLargerThanBuffer, 0⟩) ∧
    (1 ≤ bget B 1 → bget B 1 ≤ 254 → bget B 1 + 4 ≤ B.length → bget B 2 = 0 →
      DecodePayload B d = ⟨B, kPacketAlreadyDecoded, 0⟩) := by
  refine ⟨?_, ?_, ?_, ?_⟩
  · intro h
    rw [DecodePayload]
    rw [if_pos (by simp only [kPayloadSizeIndex]; omega)]
  · intro h
    rw [DecodePayload]
    rw [if_neg (by simp only [kPayloadSizeIndex]; omega),
      if_pos (by simp only [kPayloadSizeIndex]; omega)]
  · intro h1 h2 h3
    rw [DecodePayload]
    rw [if_neg (by simp only [kPayloadSizeIndex]; omega),
      if_neg (by simp only [kPayloadSizeIndex]; omega),
      if_pos (by simp only [kPayloadSizeIndex, kOverheadByteIndex]; omega)]
  · intro h1 h2 h3 h4
    rw [DecodePayload]
    rw [if_neg (by simp only [kPayloadSizeIndex]; omega),
      if_neg (by simp only [kPayloadSizeIndex]; omega),
      if_neg (by simp only [kPayloadSizeIndex, kOverheadByteIndex]; omega),
      if_pos (by simp only [kOverheadByteIndex]; omega)]

/-- C7 witness: a buffer whose contents would trigger
delimiter-found-too-early (an early 0 byte in the payload region) still
reports already-decoded when the overhead byte is 0. -/
theorem claim_C7_witness :
    DecodePayload [129, 3, 0, 0, 9, 9, 0, 5] 0 =
      ⟨[129, 3, 0, 0, 9, 9, 0, 5], kPacketAlreadyDecoded, 0⟩ :=
  (claim_C7_decode_error_precedence [129, 3, 0, 0, 9, 9, 0, 5] 0).2.2.2 (by decide)
    (by decide) (by decide) (by decide)

/-- Modelled from the spec: crc_processor.h is not among the available
sources, so this follows specification section 4.2. One shift-XOR round
of the CRC table construction: if the most significant of the `n` bits
is set, shift left and XOR with the polynomial, else just shift left;
the result is masked to `n` bits. -/
def crcStep (p n c : Nat) : Nat :=
  (if Nat.testBit c (n - 1) then (c <<< 1) ^^^ p else c <<< 1) % 2 ^ n

/-- Modelled from the spec: entry `b` of the 256-entry CRC lookup table,
built by loading the byte into the top table register bits
(`crc = b << (8*(W-1))`, with `n = 8*W`) and running 8 shift-XOR
rounds. -/
def crcTableEntry (p n b : Nat) : Nat := (crcStep p n)^[8] (b <<< (n - 8))

/-- Modelled from the spec: the table-driven per-byte update of the CRC
calculate contract, `crc = (crc << 8) XOR table[(crc >> (8*(W-1))) XOR b]`,
masked to `n` bits. -/
def crcUpdate (p n c b : Nat) : Nat :=
  ((c <<< 8) ^^^ crcTableEntry p n ((c >>> (n - 8)) ^^^ b)) % 2 ^ n

/-- Modelled from the spec: the running CRC remainder over a byte list,
starting from `init` (no final XOR applied yet). -/
def crcRaw (p n init : Nat) (data : List Nat) : Nat := data.foldl (crcUpdate p n) init

/-- Modelled from the spec: the full CRC calculate contract over a byte
list — run the table-driven update from `init` and XOR the final
remainder with `xorOut`. -/
def crcCalculate (p n init xorOut : Nat) (data : List Nat) : Nat :=
  crcRaw p n init data ^^^ xorOut

/-- Modelled from the spec: the `W` bytes of a checksum value, most
significant byte first, as appended to a packet by the CRC codec. -/
def bytesBE : Nat → Nat → List Nat
  | 0, _ => []
  | w + 1, v => (v >>> (8 * w)) % 256 :: bytesBE w v

/-- Shifting distributes over XOR, bitwise. -/
theorem shiftLeft_xor_distrib (a b k : Nat) :
    (a ^^^ b) <<< k = (a <<< k) ^^^ (b <<< k) := by
  refine Nat.eq_of_testBit_eq fun i => ?_
  simp only [Nat.testBit_shiftLeft, Nat.testBit_xor]
  by_cases h : i ≥ k <;> simp [h]

/-- Truncation to `n` bits distributes over XOR, bitwise. -/
theorem mod_two_pow_xor_distrib (a b n : Nat) :
    (a ^^^ b) % 2 ^ n = (a % 2 ^ n) ^^^ (b % 2 ^ n) := by
  refine Nat.eq_of_testBit_eq fun i => ?_
  simp only [Nat.testBit_mod_two_pow, Nat.testBit_xor]
  by_cases h : i < n <;> simp [h]

theorem crcStep_lt (p n c : Nat) : crcStep p n c < 2 ^ n :=
  Nat.mod_lt _ (Nat.pos_pow_of_pos n (by omega))

theorem crcStep_zero (p n : Nat) : crcStep p n 0 = 0 := by
  simp [crcStep]

theorem nat_xor_left_comm (a b c : Nat) : a ^^^ (b ^^^ c) = b ^^^ (a ^^^ c) := by
  rw [← Nat.xor_assoc, Nat.xor_comm a b, Nat.xor_assoc]

/-- The shift-XOR round is GF(2)-linear. -/
theorem crcStep_xor (p n a b : Nat) :
    crcStep p n (a ^^^ b) = crcStep p n a ^^^ crcStep p n b := by
  unfold crcStep
  rw [← mod_two_pow_xor_distrib]
  congr 1
  rw [Nat.testBit_xor]
  cases ha : Nat.testBit a (n - 1) <;> cases hb : Nat.testBit b (n - 1) <;>
    simp [shiftLeft_xor_distrib, Nat.xor_assoc, nat_xor_left_comm, Nat.xor_comm,
      Nat.xor_self, Nat.xor_zero]
  rw [← Nat.xor_assoc, Nat.xor_self, Nat.zero_xor]

theorem crcStep_iterate_zero (p n k : Nat) : (crcStep p n)^[k] 0 = 0 := by
  induction k with
  | zero => rfl
  | succ m ih => rw [Function.iterate_succ_apply, crcStep_zero, ih]

/-- Iterated shift-XOR rounds are GF(2)-linear. -/
theorem crcStep_iterate_xor (p n k a b : Nat) :
    (crcStep p n)^[k] (a ^^^ b) = (crcStep p n)^[k] a ^^^ (crcStep p n)^[k] b := by
  induction k generalizing a b with
  | zero => rfl
  | succ m ih =>
    rw [Function.iterate_succ_apply, Function.iterate_succ_apply,
      Function.iterate_succ_apply, crcStep_xor, ih]

/-- On a value whose top bit is clear the round is a plain shift. -/
theorem crcStep_small (p n v : Nat) (hn : 1 ≤ n) (hv : v < 2 ^ (n - 1)) :
    crcStep p n v = v <<< 1 := by
  have htop : Nat.testBit v (n - 1) = false := Nat.testBit_lt_two_pow hv
  have hlt : v <<< 1 < 2 ^ n := by
    rw [Nat.shiftLeft_eq]
    have h1 : v * 2 ^ 1 < 2 ^ (n - 1) * 2 ^ 1 :=
      (Nat.mul_lt_mul_right (by norm_num)).mpr hv
    have h2 : 2 ^ (n - 1) * 2 ^ 1 = 2 ^ n := by
      rw [← pow_add]
      congr 1
      omega
    omega
  rw [crcStep, if_neg (by rw [htop]; exact Bool.false_ne_true), Nat.mod_eq_of_lt hlt]

/-- Iterating the round `k` times on a value at least `k` bits below the
top is a plain `k`-bit shift. -/
theorem crcStep_iterate_small (p n : Nat) :
    ∀ k v, k ≤ n → v < 2 ^ (n - k) → (crcStep p n)^[k] v = v <<< k := by
  intro k
  induction k with
  | zero => intro v _ _; simp
  | succ m ih =>
    intro v hk hv
    rw [Function.iterate_succ_apply']
    have hvm : v < 2 ^ (n - m) := by
      have : 2 ^ (n - (m + 1)) ≤ 2 ^ (n - m) := Nat.pow_le_pow_right (by omega) (by omega)
      omega
    rw [ih v (by omega) hvm]
    have hsh : v <<< m < 2 ^ (n - 1) := by
      rw [Nat.shiftLeft_eq]
      have h1 : v * 2 ^ m < 2 ^ (n - (m + 1)) * 2 ^ m :=
        (Nat.mul_lt_mul_right (Nat.pos_pow_of_pos m (by omega))).mpr hv
      have h2 : 2 ^ (n - (m + 1)) * 2 ^ m = 2 ^ (n - 1) := by
        rw [← pow_add]
        congr 1
        omega
      omega
    rw [crcStep_small p n (v <<< m) (by omega) hsh]
    rw [Nat.shiftLeft_eq, Nat.shiftLeft_eq, Nat.shiftLeft_eq, mul_assoc, ← pow_add]

/-- Splitting a number at bit `k` into low and high parts. -/
theorem mod_xor_shift (x k : Nat) : (x % 2 ^ k) ^^^ ((x >>> k) <<< k) = x := by
  refine Nat.eq_of_testBit_eq fun i => ?_
  simp only [Nat.testBit_xor, Nat.testBit_mod_two_pow, Nat.testBit_shiftLeft,
    Nat.testBit_shiftRight]
  by_cases h : i < k
  · have h2 : ¬ i ≥ k := by omega
    simp [h, h2]
  · have h2 : i ≥ k := by omega
    have h3 : k + (i - k) = i := by omega
    simp [h, h2, h3]

/-- Truncating an 8-bit shift to `n` bits equals shifting the `n - 8`
low bits. -/
theorem shiftLeft_mod_two_pow (R n : Nat) (hn : 8 ≤ n) :
    (R <<< 8) % 2 ^ n = (R % 2 ^ (n - 8)) <<< 8 := by
  refine Nat.eq_of_testBit_eq fun i => ?_
  simp only [Nat.testBit_mod_two_pow, Nat.testBit_shiftLeft]
  by_cases h8 : i ≥ 8
  · by_cases hn2 : i < n
    · have hh : i - 8 < n - 8 := by omega
      simp [h8, hn2, hh]
    · have hh : ¬ (i - 8 < n - 8) := by omega
      simp [h8, hn2, hh]
  · simp [h8]

theorem crcTableEntry_xor (p n a b : Nat) :
    crcTableEntry p n (a ^^^ b) = crcTableEntry p n a ^^^ crcTableEntry p n b := by
  unfold crcTableEntry
  rw [shiftLeft_xor_distrib, crcStep_iterate_xor]

theorem crcTableEntry_lt (p n b : Nat) : crcTableEntry p n b < 2 ^ n := by
  unfold crcTableEntry
  rw [show (8 : Nat) = 7 + 1 from rfl, Function.iterate_succ_apply']
  exact crcStep_lt p n _

/-- Eight iterated rounds on an `n`-bit value split into the plain shift
of the low bits XOR the table entry of the top byte. -/
theorem crcStep_iterate8_decompose (p n R : Nat) (hn : 8 ≤ n) :
    (crcStep p n)^[8] R = ((R <<< 8) % 2 ^ n) ^^^ crcTableEntry p n (R >>> (n - 8)) := by
  have hsplit : (R % 2 ^ (n - 8)) ^^^ ((R >>> (n - 8)) <<< (n - 8)) = R :=
    mod_xor_shift R (n - 8)
  have hlow : R % 2 ^ (n - 8) < 2 ^ (n - 8) :=
    Nat.mod_lt _ (Nat.pos_pow_of_pos _ (by omega))
  calc (crcStep p n)^[8] R
      = (crcStep p n)^[8] ((R % 2 ^ (n - 8)) ^^^ ((R >>> (n - 8)) <<< (n - 8))) := by
        rw [hsplit]
    _ = (crcStep p n)^[8] (R % 2 ^ (n - 8)) ^^^
        (crcStep p n)^[8] ((R >>> (n - 8)) <<< (n - 8)) := crcStep_iterate_xor p n 8 _ _
    _ = ((R % 2 ^ (n - 8)) <<< 8) ^^^ crcTableEntry p n (R >>> (n - 8)) := by
        rw [crcStep_iterate_small p n 8 _ hn hlow]
        rfl
    _ = ((R <<< 8) % 2 ^ n) ^^^ crcTableEntry p n (R >>> (n - 8)) := by
        rw [shiftLeft_mod_two_pow R n hn]

/-- The table-driven byte update equals eight rounds on the remainder
XOR the table entry of the incoming byte. -/
theorem crcUpdate_decompose (p n c b : Nat) (hn : 8 ≤ n) :
    crcUpdate p n c b = (crcStep p n)^[8] c ^^^ crcTableEntry p n b := by
  unfold crcUpdate
  rw [crcTableEntry_xor, ← Nat.xor_assoc, mod_two_pow_xor_distrib,
    mod_two_pow_xor_distrib, Nat.mod_eq_of_lt (crcTableEntry_lt p n _),
    Nat.mod_eq_of_lt (crcTableEntry_lt p n b),
    crcStep_iterate8_decompose p n c hn]

theorem crcUpdate_lt (p n c b : Nat) : crcUpdate p n c b < 2 ^ n :=
  Nat.mod_lt _ (Nat.pos_pow_of_pos n (by omega))

theorem crcRaw_lt (p n : Nat) (data : List Nat) :
    ∀ init, init < 2 ^ n → crcRaw p n init data < 2 ^ n := by
  induction data with
  | nil => intro init h; exact h
  | cons b rest ih =>
    intro init h
    exact ih (crcUpdate p n init b) (crcUpdate_lt p n init b)

theorem crcRaw_append (p n init : Nat) (B C : List Nat) :
    crcRaw p n init (B ++ C) = crcRaw p n (crcRaw p n init B) C :=
  List.foldl_append ..

/-- The big-endian byte expansion only depends on the low `8 * k` bits. -/
theorem bytesBE_mod (k : Nat) : ∀ X, bytesBE k (X % 2 ^ (8 * k)) = bytesBE k X := by
  induction k with
  | zero => intro X; rfl
  | succ m ih =>
    intro X
    simp only [bytesBE]
    have hhead : ((X % 2 ^ (8 * (m + 1))) >>> (8 * m)) % 256 = (X >>> (8 * m)) % 256 := by
      have hx : (X % 2 ^ (8 * (m + 1))) >>> (8 * m) = (X >>> (8 * m)) % 2 ^ 8 := by
        refine Nat.eq_of_testBit_eq fun i => ?_
        simp only [Nat.testBit_shiftRight, Nat.testBit_mod_two_pow]
        by_cases h : i < 8
        · have hlt : 8 * m + i < 8 * (m + 1) := by omega
          simp [h, hlt]
        · have hlt : ¬ (8 * m + i < 8 * (m + 1)) := by omega
          simp [h, hlt]
      have h256 : (256 : Nat) = 2 ^ 8 := by norm_num
      rw [hx, h256, Nat.mod_mod_of_dvd _ (dvd_refl (2 ^ 8))]
    have htail : bytesBE m (X % 2 ^ (8 * (m + 1))) = bytesBE m X := by
      have h1 := ih (X % 2 ^ (8 * (m + 1)))
      have h2 : X % 2 ^ (8 * (m + 1)) % 2 ^ (8 * m) = X % 2 ^ (8 * m) :=
        Nat.mod_mod_of_dvd X (pow_dvd_pow 2 (by omega))
      rw [h2] at h1
      rw [← h1, ih]
    rw [hhead, htail]

theorem shiftLeft_shiftLeft (a j i : Nat) : a <<< j <<< i = a <<< (j + i) := by
  rw [Nat.shiftLeft_eq, Nat.shiftLeft_eq, Nat.shiftLeft_eq, mul_assoc, ← pow_add]

/-- Feeding the `k` big-endian bytes of a word `X` into the table-driven
update from remainder `R` equals running `8 * k` plain rounds on
`R XOR (X shifted to the top)`. -/
theorem crcRaw_bytesBE (p n : Nat) :
    ∀ k R X, 8 * k ≤ n → X < 2 ^ (8 * k) →
      crcRaw p n R (bytesBE k X) = (crcStep p n)^[8 * k] (R ^^^ (X <<< (n - 8 * k))) := by
  intro k
  induction k with
  | zero =>
    intro R X _ hX
    have hX0 : X = 0 := by omega
    subst hX0
    simp [crcRaw, bytesBE]
  | succ m ih =>
    intro R X hk hX
    have hn : 8 ≤ n := by omega
    have hb0 : (X >>> (8 * m)) % 256 = X >>> (8 * m) := by
      have hlt : X >>> (8 * m) < 2 ^ 8 := by
        rw [Nat.shiftRight_eq_div_pow]
        have h1 : X < 2 ^ (8 * m) * 2 ^ 8 := by
          rw [← pow_add]
          have : 8 * m + 8 = 8 * (m + 1) := by omega
          rw [this]
          exact hX
        exact Nat.div_lt_of_lt_mul h1
      have h256 : (256 : Nat) = 2 ^ 8 := by norm_num
      rw [h256]
      exact Nat.mod_eq_of_lt hlt
    have hstep : crcRaw p n R (bytesBE (m + 1) X) =
        crcRaw p n (crcUpdate p n R (X >>> (8 * m))) (bytesBE m (X % 2 ^ (8 * m))) := by
      simp only [bytesBE, crcRaw, List.foldl_cons, hb0, bytesBE_mod]
    rw [hstep]
    rw [ih (crcUpdate p n R (X >>> (8 * m))) (X % 2 ^ (8 * m)) (by omega)
      (Nat.mod_lt _ (Nat.pos_pow_of_pos _ (by omega)))]
    -- both sides are 8 * m rounds applied to equal arguments
    have hiter : 8 * (m + 1) = 8 * m + 8 := by omega
    rw [hiter, Function.iterate_add_apply]
    congr 1
    have harr : n - (8 * m + 8) = n - 8 * (m + 1) := by omega
    rw [harr]
    rw [crcUpdate_decompose p n R _ hn]
    rw [crcStep_iterate_xor]
    -- decompose the shifted word into the top byte and the rest
    have hXsplit : X <<< (n - 8 * (m + 1)) =
        ((X >>> (8 * m)) <<< (n - 8)) ^^^ ((X % 2 ^ (8 * m)) <<< (n - 8 * (m + 1))) := by
      have h1 : (X % 2 ^ (8 * m)) ^^^ ((X >>> (8 * m)) <<< (8 * m)) = X :=
        mod_xor_shift X (8 * m)
      calc X <<< (n - 8 * (m + 1))
          = ((X % 2 ^ (8 * m)) ^^^ ((X >>> (8 * m)) <<< (8 * m))) <<< (n - 8 * (m + 1)) := by
            rw [h1]
        _ = ((X % 2 ^ (8 * m)) <<< (n - 8 * (m + 1))) ^^^
            ((X >>> (8 * m)) <<< (8 * m) <<< (n - 8 * (m + 1))) := by
            rw [shiftLeft_xor_distrib]
        _ = ((X >>> (8 * m)) <<< (n - 8)) ^^^ ((X % 2 ^ (8 * m)) <<< (n - 8 * (m + 1))) := by
            rw [shiftLeft_shiftLeft]
            have : 8 * m + (n - 8 * (m + 1)) = n - 8 := by omega
            rw [this, Nat.xor_comm]
    rw [hXsplit, crcStep_iterate_xor]
    have htop : (crcStep p n)^[8] ((X >>> (8 * m)) <<< (n - 8)) =
        crcTableEntry p n (X >>> (8 * m)) := rfl
    have hlowlt : (X % 2 ^ (8 * m)) <<< (n - 8 * (m + 1)) < 2 ^ (n - 8) := by
      rw [Nat.shiftLeft_eq]
      have h1 : X % 2 ^ (8 * m) < 2 ^ (8 * m) := Nat.mod_lt _ (Nat.pos_pow_of_pos _ (by omega))
      have h2 : X % 2 ^ (8 * m) * 2 ^ (n - 8 * (m + 1)) <
          2 ^ (8 * m) * 2 ^ (n - 8 * (m + 1)) :=
        (Nat.mul_lt_mul_right (Nat.pos_pow_of_pos _ (by omega))).mpr h1
      have h3 : 2 ^ (8 * m) * 2 ^ (n - 8 * (m + 1)) = 2 ^ (n - 8) := by
        rw [← pow_add]
        congr 1
        omega
      omega
    have hlow : (crcStep p n)^[8] ((X % 2 ^ (8 * m)) <<< (n - 8 * (m + 1))) =
        (X % 2 ^ (8 * m)) <<< (n - 8 * m) := by
      rw [crcStep_iterate_small p n 8 _ hn hlowlt, shiftLeft_shiftLeft]
      congr 1
      omega
    rw [htop, hlow, Nat.xor_assoc]

/-- The general residue form of the CRC self-check: recomputing the
checksum over data plus its appended big-endian checksum yields a
constant that depends only on the polynomial, the width and `xorOut`
(not on the data or on `init`). -/
theorem crcCalculate_selfcheck (p W init xorOut : Nat)
    (hinit : init < 2 ^ (8 * W)) (hxor : xorOut < 2 ^ (8 * W)) (B : List Nat) :
    crcCalculate p (8 * W) init xorOut
        (B ++ bytesBE W (crcCalculate p (8 * W) init xorOut B)) =
      (crcStep p (8 * W))^[8 * W] xorOut ^^^ xorOut := by
  have hR : crcRaw p (8 * W) init B < 2 ^ (8 * W) := crcRaw_lt p (8 * W) B init hinit
  have hc : crcCalculate p (8 * W) init xorOut B =
      crcRaw p (8 * W) init B ^^^ xorOut := rfl
  rw [crcCalculate, crcRaw_append, hc]
  rw [crcRaw_bytesBE p (8 * W) W (crcRaw p (8 * W) init B)
    (crcRaw p (8 * W) init B ^^^ xorOut) (Nat.le_refl _)
    (Nat.xor_lt_two_pow hR hxor)]
  have hshift0 : (crcRaw p (8 * W) init B ^^^ xorOut) <<< (8 * W - 8 * W) =
      crcRaw p (8 * W) init B ^^^ xorOut := by
    rw [Nat.sub_self]
    rfl
  rw [hshift0, ← Nat.xor_assoc, Nat.xor_self, Nat.zero_xor]

example : crcTableEntry 0x07 8 1 = 0x07 := by decide

example : crcTableEntry 0x07 8 255 = 0xF3 := by decide

example : crcCalculate 0x1021 16 0xFFFF 0 [0x01, 0x02, 0x03, 0x04, 0x05, 0x15] = 0xF54E := by
  decide

example : bytesBE 2 0xF54E = [0xF5, 0x4E] := by decide

example :
    crcCalculate 0x1021 16 0xFFFF 0 [0x01, 0x02, 0x03, 0x04, 0x05, 0x15, 0xF5, 0x4E] = 0 := by
  decide

/-- C4 counterexample: for the width-1 parameter triple (polynomial 0x07,
init 0x00, final XOR 0xFF) and the one-byte buffer [0], recomputing the
checksum over the buffer extended with its own appended checksum byte
yields 12, not the final XOR value 255. -/
theorem claim_C4_counterexample :
    crcCalculate 7 (8 * 1) 0 255 ([0] ++ bytesBE 1 (crcCalculate 7 (8 * 1) 0 255 [0])) = 12 ∧
    (12 : Nat) ≠ 255 := by
  decide

/-- C4 (amended to triples whose final XOR value is 0): for every CRC
polynomial of width 1, 2 or 4 bytes, every initial value and every byte
buffer B, computing the checksum of B, appending its W bytes most
significant byte first, and recomputing the checksum over the extended
buffer yields exactly the final XOR value 0. (For a nonzero final XOR
value the recomputation instead yields the constant residue
`rounds(xorOut) XOR xorOut`, which generally differs from it.) -/
theorem claim_C4_crc_selfcheck (p W init : Nat) (_hW : W = 1 ∨ W = 2 ∨ W = 4)
    (hinit : init < 2 ^ (8 * W)) (B : List Nat) :
    crcCalculate p (8 * W) init 0 (B ++ bytesBE W (crcCalculate p (8 * W) init 0 B)) = 0 := by
  rw [crcCalculate_selfcheck p W init 0 hinit (Nat.pos_pow_of_pos _ (by omega)) B,
    crcStep_iterate_zero, Nat.zero_xor]

/-- C4 witness at the CRC-16/CCITT-FALSE parameters and the buffer of
the repository's own CRC test. -/
theorem claim_C4_witness :
    crcCalculate 4129 (8 * 2) 65535 0
        ([1, 2, 3, 4, 5, 21] ++ bytesBE 2 (crcCalculate 4129 (8 * 2) 65535 0 [1, 2, 3, 4, 5, 21]))
      = 0 :=
  claim_C4_crc_selfcheck 4129 2 65535 (Or.inr (Or.inl rfl)) (by decide) [1, 2, 3, 4, 5, 21]

theorem bget_cons_zero (a : Nat) (l : List Nat) : bget (a :: l) 0 = a := rfl

theorem bget_cons_succ (a : Nat) (l : List Nat) (i : Nat) : bget (a :: l) (i + 1) = bget l i := rfl

theorem bget_replicate (n j : Nat) : bget (List.replicate n 0) j = 0 := by
  rcases Nat.lt_or_ge j n with h | h
  · simp [bget, List.getD, List.getElem?_replicate, h]
  · exact bget_eq_zero_of_le_length (by simpa using h)

theorem bget_take (l : List Nat) (m i : Nat) : bget (l.take m) i = if i < m then bget l i else 0 := by
  by_cases h : i < m
  · rw [if_pos h]
    simp [bget, List.getD, List.getElem?_take, h]
  · rw [if_neg h]
    exact bget_eq_zero_of_le_length (by simp; omega)

theorem bget_drop (l : List Nat) (a i : Nat) : bget (l.drop a) i = bget l (a + i) := by
  simp [bget, List.getD, List.getElem?_drop]

theorem list_ext_bget {l1 l2 : List Nat} (hlen : l1.length = l2.length)
    (h : ∀ i, i < l1.length → bget l1 i = bget l2 i) : l1 = l2 := by
  refine List.ext_getElem? fun i => ?_
  rcases Nat.lt_or_ge i l1.length with hi | hi
  · have h1 : l1[i]? = some (bget l1 i) := by
      simp [bget, List.getD, List.getElem?_eq_getElem, hi]
    have h2 : l2[i]? = some (bget l2 i) := by
      simp [bget, List.getD, List.getElem?_eq_getElem, hlen ▸ hi]
    rw [h1, h2, h i hi]
  · rw [List.getElem?_eq_none hi, List.getElem?_eq_none (hlen ▸ hi)]

/-- Writes a list of bytes into a buffer starting at `pos` (the shallow
embedding of memcpy into a fixed buffer). -/
def setBytes (buf : List Nat) (pos : Nat) : List Nat → List Nat
  | [] => buf
  | b :: rest => setBytes (buf.set pos b) (pos + 1) rest

theorem setBytes_length : ∀ (bytes : List Nat) (buf : List Nat) (pos : Nat),
    (setBytes buf pos bytes).length = buf.length := by
  intro bytes
  induction bytes with
  | nil => intro buf pos; rfl
  | cons b rest ih =>
    intro buf pos
    rw [setBytes, ih, List.length_set]

theorem bget_setBytes_out : ∀ (bytes : List Nat) (buf : List Nat) (pos j : Nat),
    j < pos ∨ pos + bytes.length ≤ j → bget (setBytes buf pos bytes) j = bget buf j := by
  intro bytes
  induction bytes with
  | nil => intro buf pos j _; rfl
  | cons b rest ih =>
    intro buf pos j hj
    simp only [List.length_cons] at hj
    rw [setBytes, ih (buf.set pos b) (pos + 1) j (by omega)]
    exact bget_set_ne buf (by omega) b

theorem bget_setBytes_in : ∀ (bytes : List Nat) (buf : List Nat) (pos j : Nat),
    pos ≤ j → j < pos + bytes.length → j < buf.length →
    bget (setBytes buf pos bytes) j = bget bytes (j - pos) := by
  intro bytes
  induction bytes with
  | nil =>
    intro buf pos j h1 h2 _
    simp only [List.length_nil] at h2
    omega
  | cons b rest ih =>
    intro buf pos j h1 h2 h3
    rcases Nat.eq_or_lt_of_le h1 with he | hl
    · subst he
      rw [setBytes, bget_setBytes_out rest _ _ _ (Or.inl (by omega)),
        bget_set_self h3 b, Nat.sub_self]
      rfl
    · rw [setBytes,
        ih (buf.set pos b) (pos + 1) j (by omega)
          (by simp only [List.length_cons] at h2; omega) (by rw [List.length_set]; exact h3)]
      have hsub : j - pos = (j - (pos + 1)) + 1 := by omega
      rw [hsub, bget_cons_succ]

theorem bytesBE_length : ∀ (w v : Nat), (bytesBE w v).length = w := by
  intro w
  induction w with
  | zero => intro v; rfl
  | succ m ih => intro v; simp [bytesBE, ih]

/-- Status codes of the kCRCProcessorCodes enumeration
(axtlmc_shared_assets.h). -/
def kCalculateCRCChecksumBufferTooSmall : Nat := 52

/-- kCRCProcessorCodes::kCRCChecksumCalculated. -/
def kCRCChecksumCalculated : Nat := 53

/-- kCRCProcessorCodes::kAddCRCChecksumBufferTooSmall. -/
def kAddCRCChecksumBufferTooSmall : Nat := 54

/-- kCRCProcessorCodes::kCRCChecksumAddedToBuffer. -/
def kCRCChecksumAddedToBuffer : Nat := 55

namespace TL

/-- kTransportLayerCodes::kPacketConstructed. -/
def kPacketConstructed : Nat := 102

/-- kTransportLayerCodes::kPacketSent. -/
def kPacketSent : Nat := 103

/-- kTransportLayerCodes::kPacketStartByteNotFound. -/
def kPacketStartByteNotFound : Nat := 105

/-- kTransportLayerCodes::kPayloadSizeByteNotFound. -/
def kPayloadSizeByteNotFound : Nat := 107

/-- kTransportLayerCodes::kInvalidPayloadSize. -/
def kInvalidPayloadSize : Nat := 108

/-- kTransportLayerCodes::kPacketTimeoutError. -/
def kPacketTimeoutError : Nat := 109

/-- kTransportLayerCodes::kNoBytesToParseFromBuffer. -/
def kNoBytesToParseFromBuffer : Nat := 110

/-- kTransportLayerCodes::kPacketParsed. -/
def kPacketParsed : Nat := 111

/-- kTransportLayerCodes::kCRCCheckFailed. -/
def kCRCCheckFailed : Nat := 112

/-- kTransportLayerCodes::kPacketValidated. -/
def kPacketValidated : Nat := 113

/-- kTransportLayerCodes::kPacketReceived. -/
def kPacketReceived : Nat := 114

/-- kTransportLayerCodes::kWriteObjectBufferError. -/
def kWriteObjectBufferError : Nat := 115

/-- kTransportLayerCodes::kObjectWrittenToBuffer. -/
def kObjectWrittenToBuffer : Nat := 116

/-- kTransportLayerCodes::kDelimiterNotFoundError. -/
def kDelimiterNotFoundError : Nat := 119

/-- kTransportLayerCodes::kDelimiterFoundTooEarlyError. -/
def kDelimiterFoundTooEarlyError : Nat := 120

/-- kTransportLayerCodes::kPostambleTimeoutError. -/
def kPostambleTimeoutError : Nat := 121

/-- The compile-time configuration of a TransportLayer instance: the
template parameters (maximum transmitted and received payload sizes,
minimum payload size, CRC width `W` as the byte size of PolynomialType)
and the constructor arguments (CRC parameters, start and delimiter
bytes, start-byte error policy). -/
structure Config where
  T : Nat
  R : Nat
  M : Nat
  W : Nat
  polynomial : Nat
  init : Nat
  xorOut : Nat
  startByte : Nat
  delimiter : Nat
  allowStartByteErrors : Bool
deriving DecidableEq, Repr

/-- kMinimumPacketSize = kMinimumPayloadSize + kOverheadByteIndex +
kPostambleSize (transport_layer.h). -/
def kMinimumPacketSize (cfg : Config) : Nat := cfg.M + kOverheadByteIndex + cfg.W

/-- kTransmissionBufferSize = kMaximumTransmittedPayloadSize +
kOverheadByteIndex + 2 + kPostambleSize. -/
def kTransmissionBufferSize (cfg : Config) : Nat := cfg.T + kOverheadByteIndex + 2 + cfg.W

/-- kReceptionBufferSize = kMaximumReceivedPayloadSize +
kOverheadByteIndex + 2 + kPostambleSize. -/
def kReceptionBufferSize (cfg : Config) : Nat := cfg.R + kOverheadByteIndex + 2 + cfg.W

/-- The transmission buffer right after construction: zero-initialized
except for the start byte stored at index 0. -/
def initialTxBuffer (cfg : Config) : List Nat :=
  cfg.startByte :: List.replicate (kTransmissionBufferSize cfg - 1) 0

/-- The reception buffer right after construction: zero-initialized. -/
def initialRxBuffer (cfg : Config) : List Nat :=
  List.replicate (kReceptionBufferSize cfg) 0

/-- Embedding of `TransportLayer::Available`: compares the byte count
reported by the stream interface against kMinimumPacketSize. -/
def Available (cfg : Config) (portAvailable : Nat) : Bool :=
  kMinimumPacketSize cfg ≤ portAvailable

/-- Embedding of `TransportLayer::WriteData`: `objectBytes` is the byte
image of the written object (`provided_bytes = objectBytes.length`).
Returns the new transmission buffer, the transfer_status and the uint16
return value. The uint16 additions of the source are taken modulo
2 ^ 16. -/
def WriteData (cfg : Config) (txBuf : List Nat) (objectBytes : List Nat)
    (start_index : Nat) : List Nat × Nat × Nat :=
  let required_size := (start_index + objectBytes.length) % 2 ^ 16
  if cfg.T < required_size then (txBuf, kWriteObjectBufferError, 0)
  else
    let local_start_index := (start_index + kPayloadStartIndex) % 2 ^ 16
    let buf1 := setBytes txBuf local_start_index objectBytes
    let buf2 := buf1.set kPayloadSizeIndex
      (max (bget buf1 kPayloadSizeIndex) (required_size % 2 ^ 8))
    (buf2, kObjectWrittenToBuffer, required_size)

/-- Modelled from the spec: `CRCProcessor::CalculatePacketCRCChecksum`
(crc_processor.h is not among the available sources; specification
section 4.2, Calculate contract). Returns the checksum and the
crc_status. -/
def CalculatePacketCRCChecksum (cfg : Config) (buf : List Nat) (start length : Nat) :
    Nat × Nat :=
  if buf.length < start + length then (0, kCalculateCRCChecksumBufferTooSmall)
  else (crcCalculate cfg.polynomial (8 * cfg.W) cfg.init cfg.xorOut
    ((buf.drop start).take length), kCRCChecksumCalculated)

/-- Modelled from the spec: `CRCProcessor::AddCRCChecksumToBuffer`
(crc_processor.h is not among the available sources; specification
section 4.2, Append contract). Writes the `W` checksum bytes most
significant first at `start` and returns the buffer, the crc_status and
the next free index (0 on failure). -/
def AddCRCChecksumToBuffer (cfg : Config) (buf : List Nat) (start checksum : Nat) :
    List Nat × Nat × Nat :=
  if buf.length < start + cfg.W then (buf, kAddCRCChecksumBufferTooSmall, 0)
  else (setBytes buf start (bytesBE cfg.W checksum), kCRCChecksumAddedToBuffer, start + cfg.W)

/-- Embedding of `TransportLayer::ConstructPacket`: COBS-encode the
transmission buffer, checksum the encoded packet, append the checksum.
Returns the buffer, the transfer_status and the combined size (0 on
failure). -/
def ConstructPacket (cfg : Config) (txBuf : List Nat) : List Nat × Nat × Nat :=
  let enc := EncodePayload txBuf cfg.delimiter
  if enc.ret = 0 then (enc.buffer, enc.status, 0)
  else
    let crc := CalculatePacketCRCChecksum cfg enc.buffer kOverheadByteIndex enc.ret
    if crc.2 ≠ kCRCChecksumCalculated then (enc.buffer, crc.2, 0)
    else
      let add := AddCRCChecksumToBuffer cfg enc.buffer (enc.ret + kOverheadByteIndex) crc.1
      if add.2.2 = 0 then (add.1, add.2.1, 0)
      else (add.1, kPacketConstructed, add.2.2)

/-- Embedding of `TransportLayer::SendData`: construct the packet, then
write the leading `combined_size` buffer bytes to the stream and reset
the payload_size and overhead bytes. Returns the new transmission
buffer, the transfer_status, the emitted byte list and the boolean
result. -/
def SendData (cfg : Config) (txBuf : List Nat) : List Nat × Nat × List Nat × Bool :=
  let cp := ConstructPacket cfg txBuf
  if cp.2.2 ≠ 0 then
    (((cp.1.set kPayloadSizeIndex 0).set kOverheadByteIndex 0), kPacketSent,
      cp.1.take cp.2.2, true)
  else (cp.1, cp.2.1, [], false)

/-- The start-byte scan of `TransportLayer::ParsePacket`
(`while (_port.available()) { if (_port.read() == kStartByte) ... }`):
consume stream bytes until the start byte is found. -/
def scanStart (startByte : Nat) : List Nat → Option (List Nat)
  | [] => none
  | b :: rest => if b = startByte then some rest else scanStart startByte rest

/-- The packet-body reception loop of `TransportLayer::ParsePacket`:
read stream bytes into the buffer from index `idx` until `target` bytes
are consumed or the delimiter byte is stored. Returns the buffer, the
remaining stream, the new index, the delimiter-found flag and a flag
that is true when the stream ran dry early (the inter-byte timeout path
of the source, since no further byte can ever arrive). -/
def readBody (delim target : Nat) : List Nat → List Nat → Nat →
    List Nat × List Nat × Nat × Bool × Bool
  | [], buf, idx =>
    if target ≤ idx then (buf, [], idx, false, false) else (buf, [], idx, false, true)
  | b :: rest, buf, idx =>
    if target ≤ idx then (buf, b :: rest, idx, false, false)
    else if b = delim then (buf.set idx b, rest, idx + 1, true, false)
    else readBody delim target rest (buf.set idx b) (idx + 1)

/-- The postamble reception loop of `TransportLayer::ParsePacket`: read
stream bytes into the buffer from `idx` until `count` bytes are
consumed; the final flag is true when the stream ran dry early (the
postamble timeout path). -/
def readPost (count : Nat) : List Nat → List Nat → Nat → List Nat × List Nat × Nat × Bool
  | [], buf, idx => if count ≤ idx then (buf, [], idx, false) else (buf, [], idx, true)
  | b :: rest, buf, idx =>
    if count ≤ idx then (buf, b :: rest, idx, false)
    else readPost count rest (buf.set idx b) (idx + 1)

/-- Embedding of `TransportLayer::ParsePacket` over a byte-list stream
(every byte the sender emitted and nothing else; a dry stream stands for
the timeout paths). Returns the reception buffer, the remaining stream,
the transfer_status and the packet size (0 on failure). -/
def ParsePacket (cfg : Config) (rxBuf : List Nat) (stream : List Nat) :
    List Nat × List Nat × Nat × Nat :=
  match scanStart cfg.startByte stream with
  | none =>
    (rxBuf, [],
      if cfg.allowStartByteErrors then kPacketStartByteNotFound
      else kNoBytesToParseFromBuffer, 0)
  | some s1 =>
    match s1 with
    | [] => (rxBuf, [], kPayloadSizeByteNotFound, 0)
    | psz :: s2 =>
      let buf1 := rxBuf.set kPayloadSizeIndex psz
      if bget buf1 kPayloadSizeIndex < cfg.M ∨ cfg.R < bget buf1 kPayloadSizeIndex then
        (buf1, s2, kInvalidPayloadSize, 0)
      else
        let remaining_size := bget buf1 kPayloadSizeIndex + kOverheadByteIndex + 2
        match readBody cfg.delimiter remaining_size s2 buf1 kOverheadByteIndex with
        | (buf2, s3, idx, delimiter_found, timed_out) =>
          if timed_out then (buf2, s3, kPacketTimeoutError, 0)
          else if ¬ delimiter_found then (buf2, s3, kDelimiterNotFoundError, 0)
          else if idx ≠ remaining_size then (buf2, s3, kDelimiterFoundTooEarlyError, 0)
          else
            match readPost (remaining_size + cfg.W) s3 buf2 idx with
            | (buf3, s4, idx2, timed_out2) =>
              if timed_out2 then (buf3, s4, kPostambleTimeoutError, 0)
              else (buf3, s4, kPacketParsed, idx2 - kOverheadByteIndex)

/-- Embedding of `TransportLayer::ValidatePacket`: CRC over the parsed
packet plus postamble must be 0, then COBS decode. Returns the buffer,
the transfer_status and the payload size (0 on failure). -/
def ValidatePacket (cfg : Config) (rxBuf : List Nat) (packet_size : Nat) :
    List Nat × Nat × Nat :=
  let crc := CalculatePacketCRCChecksum cfg rxBuf kOverheadByteIndex packet_size
  if crc.2 ≠ kCRCChecksumCalculated then (rxBuf, crc.2, 0)
  else if crc.1 ≠ 0 then (rxBuf, kCRCCheckFailed, 0)
  else
    let dec := DecodePayload rxBuf cfg.delimiter
    if dec.ret = 0 then (dec.buffer, dec.status, 0)
    else (dec.buffer, kPacketValidated, dec.ret)

/-- Embedding of `TransportLayer::ReceiveData`: gate on `Available`,
reset the reception buffer trackers, parse and validate. Returns the
reception buffer, the remaining stream, the transfer_status and the
boolean result. -/
def ReceiveData (cfg : Config) (rxBuf : List Nat) (stream : List Nat) :
    List Nat × List Nat × Nat × Bool :=
  if ¬ Available cfg stream.length then (rxBuf, stream, kNoBytesToParseFromBuffer, false)
  else
    let rxBuf0 := (rxBuf.set kPayloadSizeIndex 0).set kOverheadByteIndex 0
    match ParsePacket cfg rxBuf0 stream with
    | (buf1, s1, status, packet_size) =>
      if packet_size = 0 then (buf1, s1, status, false)
      else
        let v := ValidatePacket cfg buf1 packet_size
        if v.2.2 = 0 then (v.1, s1, v.2.1, false)
        else (v.1, s1, kPacketReceived, true)

end TL

theorem bget_append (l1 l2 : List Nat) (i : Nat) :
    bget (l1 ++ l2) i = if i < l1.length then bget l1 i else bget l2 (i - l1.length) := by
  by_cases h : i < l1.length
  · rw [if_pos h]
    simp [bget, List.getD, List.getElem?_append_left h]
  · rw [if_neg h]
    simp [bget, List.getD, List.getElem?_append_right (by omega : l1.length ≤ i)]

/-- C3 counterexample: with minimum payload size 1 and a 1-byte CRC, the
code reports `Available = true` already at 4 buffered bytes, while the
claimed threshold M + 2 + W + 1 is 5. -/
theorem claim_C3_counterexample :
    TL.Available ⟨254, 254, 1, 1, 7, 0, 0, 129, 0, false⟩ 4 = true ∧
    ¬ (1 + 2 + 1 + 1 ≤ 4) := by
  decide

/-- C3 (amended): `Available` returns true exactly when the byte stream
reports at least M + 2 + W bytes (kMinimumPacketSize =
kMinimumPayloadSize + kOverheadByteIndex + kPostambleSize), without the
extra `+ 1` of the claim; the function reads only the reported count and
the static configuration, so no transport state changes. -/
theorem claim_C3_available_iff (cfg : TL.Config) (n : Nat) :
    TL.Available cfg n = true ↔ cfg.M + 2 + cfg.W ≤ n := by
  simp [TL.Available, TL.kMinimumPacketSize, kOverheadByteIndex]

/-- Characterization of `WriteData` without uint16 wrap-around: the
overflow guard, the returned index, the monotone payload_size update and
the untouched remainder of the buffer. -/
theorem WriteData_spec (cfg : TL.Config) (txBuf obj : List Nat) (start : Nat)
    (hT : cfg.T ≤ 254) (hnov : start + obj.length < 2 ^ 16)
    (hlen : txBuf.length = TL.kTransmissionBufferSize cfg) :
    (cfg.T < start + obj.length →
      TL.WriteData cfg txBuf obj start = (txBuf, TL.kWriteObjectBufferError, 0)) ∧
    (start + obj.length ≤ cfg.T →
      (TL.WriteData cfg txBuf obj start).2.1 = TL.kObjectWrittenToBuffer ∧
      (TL.WriteData cfg txBuf obj start).2.2 = start + obj.length ∧
      (TL.WriteData cfg txBuf obj start).1.length = txBuf.length ∧
      bget (TL.WriteData cfg txBuf obj start).1 1 = max (bget txBuf 1) (start + obj.length) ∧
      (∀ j, start + 3 ≤ j → j < start + 3 + obj.length →
        bget (TL.WriteData cfg txBuf obj start).1 j = bget obj (j - (start + 3))) ∧
      (∀ j, j ≠ 1 → j < start + 3 ∨ start + 3 + obj.length ≤ j →
        bget (TL.WriteData cfg txBuf obj start).1 j = bget txBuf j)) := by
  have hmod : (start + obj.length) % 2 ^ 16 = start + obj.length := Nat.mod_eq_of_lt hnov
  constructor
  · intro h
    rw [TL.WriteData]
    simp only [hmod]
    rw [if_pos h]
  · intro h
    have hbig : TL.kTransmissionBufferSize cfg = cfg.T + 2 + 2 + cfg.W := rfl
    have hstart : start + obj.length ≤ 254 := le_trans h hT
    have hmod8 : (start + obj.length) % 2 ^ 8 = start + obj.length :=
      Nat.mod_eq_of_lt (by omega)
    have hls : (start + kPayloadStartIndex) % 2 ^ 16 = start + 3 := by
      simp only [kPayloadStartIndex]
      exact Nat.mod_eq_of_lt (by omega)
    have hw : TL.WriteData cfg txBuf obj start =
        ((setBytes txBuf (start + 3) obj).set 1
          (max (bget (setBytes txBuf (start + 3) obj) 1) (start + obj.length)),
          TL.kObjectWrittenToBuffer, start + obj.length) := by
      rw [TL.WriteData]
      simp only [hmod, hls, hmod8, kPayloadSizeIndex]
      rw [if_neg (by omega)]
    rw [hw]
    have hone : bget (setBytes txBuf (start + 3) obj) 1 = bget txBuf 1 :=
      bget_setBytes_out obj txBuf (start + 3) 1 (Or.inl (by omega))
    have h1len : 1 < (setBytes txBuf (start + 3) obj).length := by
      rw [setBytes_length, hlen, hbig]
      omega
    refine ⟨rfl, rfl, ?_, ?_, ?_, ?_⟩
    · rw [List.length_set, setBytes_length]
    · rw [bget_set_self h1len, hone]
    · intro j hj1 hj2
      rw [bget_set_ne _ (by omega : (1 : Nat) ≠ j),
        bget_setBytes_in obj txBuf (start + 3) j hj1 hj2 (by rw [hlen, hbig]; omega)]
    · intro j hj1 hj2
      rw [bget_set_ne _ (fun hh => hj1 hh.symm),
        bget_setBytes_out obj txBuf (start + 3) j (by omega)]

/-- C8 counterexample: with start_offset 65535 and a 2-byte object, the
uint16 sum wraps to 1, so the overflow guard passes even though
start_offset + nbytes far exceeds the maximum payload size 4: the call
succeeds and returns 1 instead of failing with write-buffer-overflow. -/
theorem claim_C8_counterexample :
    (TL.WriteData ⟨4, 4, 1, 1, 7, 0, 0, 129, 0, false⟩
        [129, 0, 0, 0, 0, 0, 0, 0, 0] [5, 6] 65535).2.1 = TL.kObjectWrittenToBuffer ∧
    (TL.WriteData ⟨4, 4, 1, 1, 7, 0, 0, 129, 0, false⟩
        [129, 0, 0, 0, 0, 0, 0, 0, 0] [5, 6] 65535).2.2 = 1 ∧
    (4 : Nat) < 65535 + 2 := by
  decide

/-- C8 (amended to sums below the uint16 wrap-around): for every object
and start_offset with start_offset + nbytes < 2^16, WriteData fails with
write-buffer-overflow returning 0 and leaving the buffer unchanged
exactly when start_offset + nbytes exceeds the maximum payload size T;
otherwise it copies the bytes into the payload region at start_offset,
sets payload_size to max(previous payload_size, start_offset + nbytes)
and returns start_offset + nbytes. -/
theorem claim_C8_writedata (cfg : TL.Config) (txBuf obj : List Nat) (start : Nat)
    (hT : cfg.T ≤ 254) (hnov : start + obj.length < 2 ^ 16)
    (hlen : txBuf.length = TL.kTransmissionBufferSize cfg) :
    (cfg.T < start + obj.length →
      TL.WriteData cfg txBuf obj start = (txBuf, TL.kWriteObjectBufferError, 0)) ∧
    (start + obj.length ≤ cfg.T →
      (TL.WriteData cfg txBuf obj start).2.1 = TL.kObjectWrittenToBuffer ∧
      (TL.WriteData cfg txBuf obj start).2.2 = start + obj.length ∧
      (TL.WriteData cfg txBuf obj start).1.length = txBuf.length ∧
      bget (TL.WriteData cfg txBuf obj start).1 1 = max (bget txBuf 1) (start + obj.length) ∧
      (∀ j, start + 3 ≤ j → j < start + 3 + obj.length →
        bget (TL.WriteData cfg txBuf obj start).1 j = bget obj (j - (start + 3))) ∧
      (∀ j, j ≠ 1 → j < start + 3 ∨ start + 3 + obj.length ≤ j →
        bget (TL.WriteData cfg txBuf obj start).1 j = bget txBuf j)) :=
  WriteData_spec cfg txBuf obj start hT hnov hlen

/-- C8 witness: writing a 2-byte object at offset 1 of a fresh
transmission buffer. -/
theorem claim_C8_witness :
    (4 < 1 + ([5, 6] : List Nat).length →
      TL.WriteData ⟨4, 4, 1, 1, 7, 0, 0, 129, 0, false⟩
        (TL.initialTxBuffer ⟨4, 4, 1, 1, 7, 0, 0, 129, 0, false⟩) [5, 6] 1 =
        (TL.initialTxBuffer ⟨4, 4, 1, 1, 7, 0, 0, 129, 0, false⟩,
          TL.kWriteObjectBufferError, 0)) ∧
    (1 + ([5, 6] : List Nat).length ≤ 4 →
      (TL.WriteData ⟨4, 4, 1, 1, 7, 0, 0, 129, 0, false⟩
        (TL.initialTxBuffer ⟨4, 4, 1, 1, 7, 0, 0, 129, 0, false⟩) [5, 6] 1).2.1 =
          TL.kObjectWrittenToBuffer ∧
      (TL.WriteData ⟨4, 4, 1, 1, 7, 0, 0, 129, 0, false⟩
        (TL.initialTxBuffer ⟨4, 4, 1, 1, 7, 0, 0, 129, 0, false⟩) [5, 6] 1).2.2 =
          1 + ([5, 6] : List Nat).length ∧
      (TL.WriteData ⟨4, 4, 1, 1, 7, 0, 0, 129, 0, false⟩
        (TL.initialTxBuffer ⟨4, 4, 1, 1, 7, 0, 0, 129, 0, false⟩) [5, 6] 1).1.length =
          (TL.initialTxBuffer ⟨4, 4, 1, 1, 7, 0, 0, 129, 0, false⟩).length ∧
      bget (TL.WriteData ⟨4, 4, 1, 1, 7, 0, 0, 129, 0, false⟩
        (TL.initialTxBuffer ⟨4, 4, 1, 1, 7, 0, 0, 129, 0, false⟩) [5, 6] 1).1 1 =
          max (bget (TL.initialTxBuffer ⟨4, 4, 1, 1, 7, 0, 0, 129, 0, false⟩) 1)
            (1 + ([5, 6] : List Nat).length) ∧
      (∀ j, 1 + 3 ≤ j → j < 1 + 3 + ([5, 6] : List Nat).length →
        bget (TL.WriteData ⟨4, 4, 1, 1, 7, 0, 0, 129, 0, false⟩
          (TL.initialTxBuffer ⟨4, 4, 1, 1, 7, 0, 0, 129, 0, false⟩) [5, 6] 1).1 j =
            bget [5, 6] (j - (1 + 3))) ∧
      (∀ j, j ≠ 1 → j < 1 + 3 ∨ 1 + 3 + ([5, 6] : List Nat).length ≤ j →
        bget (TL.WriteData ⟨4, 4, 1, 1, 7, 0, 0, 129, 0, false⟩
          (TL.initialTxBuffer ⟨4, 4, 1, 1, 7, 0, 0, 129, 0, false⟩) [5, 6] 1).1 j =
            bget (TL.initialTxBuffer ⟨4, 4, 1, 1, 7, 0, 0, 129, 0, false⟩) j)) :=
  claim_C8_writedata ⟨4, 4, 1, 1, 7, 0, 0, 129, 0, false⟩
    (TL.initialTxBuffer ⟨4, 4, 1, 1, 7, 0, 0, 129, 0, false⟩) [5, 6] 1 (by decide)
    (by decide) (by decide)

/-- Unfolding equation of the body-reception loop on a nonempty stream. -/
theorem readBody_cons (delim target b : Nat) (rest buf : List Nat) (idx : Nat) :
    TL.readBody delim target (b :: rest) buf idx =
      if target ≤ idx then (buf, b :: rest, idx, false, false)
      else if b = delim then (buf.set idx b, rest, idx + 1, true, false)
      else TL.readBody delim target rest (buf.set idx b) (idx + 1) := rfl

/-- Unfolding equation of the postamble-reception loop on a nonempty
stream. -/
theorem readPost_cons (count b : Nat) (rest buf : List Nat) (idx : Nat) :
    TL.readPost count (b :: rest) buf idx =
      if count ≤ idx then (buf, b :: rest, idx, false)
      else TL.readPost count rest (buf.set idx b) (idx + 1) := rfl

/-- Running the body-reception loop over a stream whose next bytes are a
block ending in the first delimiter occurrence writes exactly that block
into the buffer and stops on the delimiter with the full count
consumed. -/
theorem readBody_spec (target : Nat) :
    ∀ (body post buf : List Nat) (idx : Nat),
      idx + body.length = target → 1 ≤ body.length →
      (∀ i, i + 1 < body.length → bget body i ≠ 0) →
      bget body (body.length - 1) = 0 →
      TL.readBody 0 target (body ++ post) buf idx =
        (setBytes buf idx body, post, target, true, false) := by
  intro body
  induction body with
  | nil => intro post buf idx _ h2 _ _; simp at h2
  | cons b rest ih =>
    intro post buf idx h1 _ h3 h4
    simp only [List.length_cons] at h1
    rw [List.cons_append, readBody_cons]
    rcases rest with _ | ⟨r, rest2⟩
    · -- single byte left: it is the delimiter
      have hb : b = 0 := h4
      subst hb
      rw [if_neg (by simp only [List.length_nil] at h1; omega), if_pos rfl]
      simp only [List.length_nil] at h1
      rw [setBytes, setBytes, List.nil_append, h1]
    · -- a non-delimiter byte followed by more body bytes
      have hb : ¬ (b = 0) := by
        have := h3 0 (by simp only [List.length_cons]; omega)
        simpa using this
      rw [if_neg (by simp only [List.length_cons] at h1 ⊢; omega), if_neg hb]
      rw [ih post (buf.set idx b) (idx + 1)
        (by simp only [List.length_cons] at h1 ⊢; omega)
        (by simp only [List.length_cons]; omega)
        (by
          intro i hi
          have hh := h3 (i + 1) (by simp only [List.length_cons] at hi ⊢; omega)
          rw [bget_cons_succ] at hh
          exact hh)
        (by
          rw [show (r :: rest2).length - 1 = (b :: r :: rest2).length - 1 - 1 by
            simp only [List.length_cons]; omega]
          have hh := h4
          rw [show (b :: r :: rest2).length - 1 = ((b :: r :: rest2).length - 1 - 1) + 1 by
            simp only [List.length_cons]; omega, bget_cons_succ] at hh
          exact hh)]
      simp only [setBytes]

/-- Running the postamble-reception loop over a stream whose next bytes
are exactly the remaining count writes them into the buffer. -/
theorem readPost_spec : ∀ (bytes rest buf : List Nat) (idx count : Nat),
    idx + bytes.length = count →
    TL.readPost count (bytes ++ rest) buf idx = (setBytes buf idx bytes, rest, count, false) := by
  intro bytes
  induction bytes with
  | nil =>
    intro rest buf idx count h1
    simp only [List.length_nil] at h1
    have h2 : idx = count := by omega
    subst h2
    rcases rest with _ | ⟨r, rest2⟩
    · show TL.readPost idx [] buf idx = (setBytes buf idx [], [], idx, false)
      rw [setBytes, TL.readPost, if_pos (Nat.le_refl idx)]
    · rw [List.nil_append, setBytes, readPost_cons, if_pos (Nat.le_refl idx)]
  | cons b bs ih =>
    intro rest buf idx count h1
    simp only [List.length_cons] at h1
    rw [List.cons_append, readPost_cons, if_neg (by omega)]
    rw [ih rest (buf.set idx b) (idx + 1) count (by omega)]
    rw [setBytes]

theorem initialTxBuffer_length (cfg : TL.Config) :
    (TL.initialTxBuffer cfg).length = TL.kTransmissionBufferSize cfg := by
  have h4 : 4 ≤ TL.kTransmissionBufferSize cfg := by
    simp only [TL.kTransmissionBufferSize, kOverheadByteIndex]
    omega
  simp only [TL.initialTxBuffer, List.length_cons, List.length_replicate]
  omega

theorem bget_initialTxBuffer_zero (cfg : TL.Config) :
    bget (TL.initialTxBuffer cfg) 0 = cfg.startByte := rfl

theorem bget_initialTxBuffer_succ (cfg : TL.Config) (j : Nat) :
    bget (TL.initialTxBuffer cfg) (j + 1) = 0 := by
  rw [TL.initialTxBuffer, bget_cons_succ, bget_replicate]

theorem initialRxBuffer_length (cfg : TL.Config) :
    (TL.initialRxBuffer cfg).length = TL.kReceptionBufferSize cfg := by
  simp [TL.initialRxBuffer]

theorem bget_initialRxBuffer (cfg : TL.Config) (j : Nat) :
    bget (TL.initialRxBuffer cfg) j = 0 := by
  rw [TL.initialRxBuffer, bget_replicate]

set_option maxHeartbeats 3200000 in
/-- C2 (amended): a full send-receive round trip through a lossless
stream delivers the payload bit for bit, provided the shared delimiter
byte is 0, the CRC final XOR value is 0, and the payload size is
accepted by both sides (|P| within [M, R] and at most T). -/
theorem claim_C2_send_receive_roundtrip (cfg : TL.Config) (P : List Nat)
    (hdelim : cfg.delimiter = 0) (hxor : cfg.xorOut = 0)
    (hWge : 1 ≤ cfg.W) (hinit : cfg.init < 2 ^ (8 * cfg.W))
    (hM1 : 1 ≤ cfg.M) (hMP : cfg.M ≤ P.length) (hPR : P.length ≤ cfg.R)
    (hPT : P.length ≤ cfg.T) (hT : cfg.T ≤ 254) (hR : cfg.R ≤ 254) :
    (TL.WriteData cfg (TL.initialTxBuffer cfg) P 0).2.1 = TL.kObjectWrittenToBuffer ∧
    (TL.SendData cfg (TL.WriteData cfg (TL.initialTxBuffer cfg) P 0).1).2.2.2 = true ∧
    (TL.ReceiveData cfg (TL.initialRxBuffer cfg)
      (TL.SendData cfg (TL.WriteData cfg (TL.initialTxBuffer cfg) P 0).1).2.2.1).2.2.2 = true ∧
    bget (TL.ReceiveData cfg (TL.initialRxBuffer cfg)
      (TL.SendData cfg (TL.WriteData cfg (TL.initialTxBuffer cfg) P 0).1).2.2.1).1 1 =
      P.length ∧
    ∀ j, j < P.length →
      bget (TL.ReceiveData cfg (TL.initialRxBuffer cfg)
        (TL.SendData cfg (TL.WriteData cfg (TL.initialTxBuffer cfg) P 0).1).2.2.1).1 (3 + j) =
      bget P j := by
  set L := P.length with hL
  set tx0 := TL.initialTxBuffer cfg with htx0
  have htx0len : tx0.length = TL.kTransmissionBufferSize cfg := initialTxBuffer_length cfg
  have hbig : TL.kTransmissionBufferSize cfg = cfg.T + 2 + 2 + cfg.W := rfl
  have hL1 : 1 ≤ L := by omega
  have hL254 : L ≤ 254 := by omega
  -- step 1: WriteData stages the payload
  obtain ⟨hovcase, hsucc⟩ := WriteData_spec cfg tx0 P 0 hT (by omega) htx0len
  obtain ⟨ws, wret, wlen, w1, wreg, wout⟩ := hsucc (by omega)
  set txW := (TL.WriteData cfg tx0 P 0).1 with htxW
  have htx01 : bget tx0 1 = 0 := bget_initialTxBuffer_succ cfg 0
  have hw1 : bget txW 1 = L := by
    rw [w1, htx01]
    omega
  have hw0 : bget txW 0 = cfg.startByte := by
    rw [wout 0 (by omega) (Or.inl (by omega))]
    exact bget_initialTxBuffer_zero cfg
  have hw2 : bget txW 2 = 0 := by
    rw [wout 2 (by omega) (Or.inl (by omega))]
    exact bget_initialTxBuffer_succ cfg 1
  have hwreg : ∀ j, 3 ≤ j → j < 3 + L → bget txW j = bget P (j - 3) := by
    intro j h1j h2j
    have hh := wreg j (by omega) (by omega)
    simpa using hh
  have hwlen : txW.length = cfg.T + 2 + 2 + cfg.W := by
    rw [wlen, htx0len, hbig]
  -- step 2: the COBS encode inside ConstructPacket
  set delimIdx := L + 3 with hdi
  set O := (findDelim txW 0 3 L).getD delimIdx with hO
  obtain ⟨eStat, eRet, eLen, e0, e1, e2, eKeep, eDel, eDelim, eOut⟩ :=
    EncodePayload_spec txW 0 L delimIdx O hw1.symm hdi hO hL1 hL254 (by omega) hw2
  obtain ⟨-, rNonzero, rZero⟩ := EncodePayload_region_spec txW L hw1 hL1 hL254 (by omega) hw2
  set E := (EncodePayload txW 0).buffer with hE
  have hElen : E.length = cfg.T + 2 + 2 + cfg.W := by rw [eLen, hwlen]
  have hOfacts : 3 ≤ O ∧ O ≤ delimIdx ∧
      (O = delimIdx ∨ (O < delimIdx ∧ bget txW O = 0)) ∧
      (∀ i, 3 ≤ i → i < O → bget txW i ≠ 0) := by
    rcases hfd : findDelim txW 0 3 L with _ | k
    · have hnone := findDelim_none _ _ hfd
      have hh : O = delimIdx := by rw [hO, hfd]; rfl
      refine ⟨by omega, by omega, Or.inl hh, ?_⟩
      intro i hi1 hi2
      exact hnone i hi1 (by omega)
    · obtain ⟨hk1, hk2, hk3, hk4⟩ := findDelim_some _ _ k hfd
      have hh : O = k := by rw [hO, hfd]; rfl
      refine ⟨by omega, by omega, Or.inr ⟨by omega, hh ▸ hk3⟩, ?_⟩
      intro i hi1 hi2
      exact hk4 i hi1 (by omega)
  obtain ⟨hOa, hOb, hOpos, hOleast⟩ := hOfacts
  -- step 3: the CRC checksum and the constructed packet
  set n := 8 * cfg.W with hn
  set body := (E.drop 2).take (L + 2) with hbody
  set c := crcCalculate cfg.polynomial n cfg.init cfg.xorOut body with hcdef
  set post := bytesBE cfg.W c with hpost
  set F := setBytes E (L + 4) post with hFdef
  have hpostlen : post.length = cfg.W := by rw [hpost, bytesBE_length]
  have hCRC : TL.CalculatePacketCRCChecksum cfg E kOverheadByteIndex (L + 2) =
      (c, kCRCChecksumCalculated) := by
    rw [TL.CalculatePacketCRCChecksum]
    rw [if_neg (by simp only [kOverheadByteIndex]; omega)]
    rw [← hn]
    simp only [kOverheadByteIndex, ← hbody, ← hcdef]
  have hADD : TL.AddCRCChecksumToBuffer cfg E (L + 2 + kOverheadByteIndex) c =
      (F, kCRCChecksumAddedToBuffer, L + 4 + cfg.W) := by
    rw [TL.AddCRCChecksumToBuffer]
    rw [if_neg (by simp only [kOverheadByteIndex]; omega)]
    rw [show L + 2 + kOverheadByteIndex = L + 4 from by simp only [kOverheadByteIndex]]
  have hCP : TL.ConstructPacket cfg txW = (F, TL.kPacketConstructed, L + 4 + cfg.W) := by
    rw [TL.ConstructPacket, hdelim, ← hE, eRet]
    rw [if_neg (by omega : ¬ (L + 2 = 0))]
    simp only [hCRC, hADD]
    rw [if_neg (show ¬ ((c, kCRCChecksumCalculated).2 ≠ kCRCChecksumCalculated) from by
      intro hcontra; exact hcontra rfl)]
    rw [if_neg (show ¬ ((F, kCRCChecksumAddedToBuffer, L + 4 + cfg.W).2.2 = 0) from by
      show ¬ (L + 4 + cfg.W = 0); omega)]
  -- step 4: SendData emits the leading combined-size bytes of the packet
  have hFlen : F.length = cfg.T + 2 + 2 + cfg.W := by
    rw [hFdef, setBytes_length, hElen]
  have hSD : TL.SendData cfg txW =
      ((F.set kPayloadSizeIndex 0).set kOverheadByteIndex 0, TL.kPacketSent,
        F.take (L + 4 + cfg.W), true) := by
    rw [TL.SendData]
    simp only [hCP]
    rw [if_pos (show ((F, TL.kPacketConstructed, L + 4 + cfg.W) :
        List Nat × Nat × Nat).2.2 ≠ 0 from by
      show L + 4 + cfg.W ≠ 0; omega)]
  have hbodylen : body.length = L + 2 := by
    rw [hbody, List.length_take, List.length_drop, hElen]
    omega
  -- step 5: the emitted stream, byte for byte
  have hS : F.take (L + 4 + cfg.W) = cfg.startByte :: L :: (body ++ post) := by
    apply list_ext_bget
    · rw [List.length_take, hFlen]
      simp only [List.length_cons, List.length_append, hbodylen, hpostlen]
      omega
    · intro i hi
      rw [List.length_take, hFlen] at hi
      have hiW : i < L + 4 + cfg.W := by omega
      rw [bget_take, if_pos hiW]
      rcases i with _ | i1
      · rw [hFdef, bget_setBytes_out post E (L + 4) 0 (Or.inl (by omega)),
          bget_cons_zero, e0, hw0]
      rcases i1 with _ | i2
      · rw [hFdef, bget_setBytes_out post E (L + 4) 1 (Or.inl (by omega)), e1, hw1,
          bget_cons_succ, bget_cons_zero]
      · rw [bget_cons_succ, bget_cons_succ, bget_append, hbodylen]
        by_cases hcase : i2 < L + 2
        · rw [if_pos hcase, hFdef,
            bget_setBytes_out post E (L + 4) (i2 + 1 + 1) (Or.inl (by omega)),
            hbody, bget_take, if_pos hcase, bget_drop]
          congr 1
          omega
        · rw [if_neg hcase, hFdef,
            bget_setBytes_in post E (L + 4) (i2 + 1 + 1) (by omega)
              (by rw [hpostlen]; omega) (by rw [hElen]; omega)]
          congr 1
          omega
  -- step 6: the receiver parses the emitted stream completely
  set rx0 := TL.initialRxBuffer cfg with hrx0
  have hrxlen : rx0.length = cfg.R + 2 + 2 + cfg.W := by
    rw [hrx0, initialRxBuffer_length]
    rfl
  have hrx0get : ∀ j, bget rx0 j = 0 := by
    intro j
    rw [hrx0]
    exact bget_initialRxBuffer cfg j
  have h1len : (1 : Nat) < rx0.length := by rw [hrxlen]; omega
  clear_value L tx0 txW delimIdx O E n body c post F rx0
  have hPP : TL.ParsePacket cfg rx0 (F.take (L + 4 + cfg.W)) =
      (setBytes (setBytes (rx0.set 1 L) 2 body) (L + 2 + 2) post, [],
        TL.kPacketParsed, L + 2 + cfg.W) := by
    have hscan : TL.scanStart cfg.startByte (cfg.startByte :: (L :: (body ++ post))) =
        some (L :: (body ++ post)) := by
      simp [TL.scanStart]
    rw [hS, TL.ParsePacket, hscan]
    show (if bget (rx0.set 1 L) 1 < cfg.M ∨ cfg.R < bget (rx0.set 1 L) 1 then
        (rx0.set 1 L, body ++ post, TL.kInvalidPayloadSize, 0)
      else
        match TL.readBody cfg.delimiter (bget (rx0.set 1 L) 1 + 2 + 2) (body ++ post)
            (rx0.set 1 L) 2 with
        | (buf2, s3, idx, delimiter_found, timed_out) =>
          if timed_out = true then (buf2, s3, TL.kPacketTimeoutError, 0)
          else if ¬ delimiter_found = true then (buf2, s3, TL.kDelimiterNotFoundError, 0)
          else if idx ≠ bget (rx0.set 1 L) 1 + 2 + 2 then
            (buf2, s3, TL.kDelimiterFoundTooEarlyError, 0)
          else
            match TL.readPost (bget (rx0.set 1 L) 1 + 2 + 2 + cfg.W) s3 buf2 idx with
            | (buf3, s4, idx2, timed_out2) =>
              if timed_out2 = true then (buf3, s4, TL.kPostambleTimeoutError, 0)
              else (buf3, s4, TL.kPacketParsed, idx2 - 2)) = _
    rw [show bget (rx0.set 1 L) 1 = L from bget_set_self h1len L]
    rw [if_neg (by omega : ¬ (L < cfg.M ∨ cfg.R < L))]
    rw [hdelim]
    have hrb := readBody_spec (L + 2 + 2) body post (rx0.set 1 L) 2
      (by omega)
      (by omega)
      (by
        intro i hi
        rw [hbodylen] at hi
        rw [hbody, bget_take, if_pos (by omega), bget_drop]
        exact rNonzero (2 + i) (by omega) (by omega))
      (by
        rw [hbodylen, hbody, bget_take, if_pos (by omega), bget_drop]
        have hh : 2 + (L + 2 - 1) = L + 3 := by omega
        rw [hh]
        exact rZero)
    rw [hrb]
    show (if (false = true) then (setBytes (rx0.set 1 L) 2 body, post, TL.kPacketTimeoutError, 0)
      else if ¬ (true = true) then (setBytes (rx0.set 1 L) 2 body, post, TL.kDelimiterNotFoundError, 0)
      else if L + 2 + 2 ≠ L + 2 + 2 then
        (setBytes (rx0.set 1 L) 2 body, post, TL.kDelimiterFoundTooEarlyError, 0)
      else
        match TL.readPost (L + 2 + 2 + cfg.W) post (setBytes (rx0.set 1 L) 2 body) (L + 2 + 2) with
        | (buf3, s4, idx2, timed_out2) =>
          if timed_out2 = true then (buf3, s4, TL.kPostambleTimeoutError, 0)
          else (buf3, s4, TL.kPacketParsed, idx2 - 2)) = _
    rw [if_neg (by decide : ¬ (false = true))]
    rw [if_neg (by decide : ¬ ¬ (true = true))]
    rw [if_neg (by omega : ¬ (L + 2 + 2 ≠ L + 2 + 2))]
    have hrp := readPost_spec post [] (setBytes (rx0.set 1 L) 2 body) (L + 2 + 2)
      (L + 2 + 2 + cfg.W) (by omega)
    rw [List.append_nil] at hrp
    rw [hrp]
    show (if (false = true) then
        (setBytes (setBytes (rx0.set 1 L) 2 body) (L + 2 + 2) post, [], TL.kPostambleTimeoutError, 0)
      else (setBytes (setBytes (rx0.set 1 L) 2 body) (L + 2 + 2) post, [],
        TL.kPacketParsed, L + 2 + 2 + cfg.W - 2)) = _
    rw [if_neg (by decide : ¬ (false = true))]
    have harith : L + 2 + 2 + cfg.W - 2 = L + 2 + cfg.W := by omega
    rw [harith]
  -- step 7: pointwise contents of the parsed reception buffer
  set buf3 := setBytes (setBytes (rx0.set 1 L) 2 body) (L + 2 + 2) post with hbuf3def
  have hb3len : buf3.length = cfg.R + 2 + 2 + cfg.W := by
    rw [hbuf3def, setBytes_length, setBytes_length, List.length_set, hrxlen]
  have hb1 : bget buf3 1 = L := by
    rw [hbuf3def, bget_setBytes_out post _ _ 1 (Or.inl (by omega)),
      bget_setBytes_out body _ _ 1 (Or.inl (by omega)), bget_set_self h1len L]
  have hbmid : ∀ j, 2 ≤ j → j < L + 4 → bget buf3 j = bget E j := by
    intro j hj1 hj2
    rw [hbuf3def, bget_setBytes_out post _ _ j (Or.inl (by omega)),
      bget_setBytes_in body _ 2 j hj1 (by omega) (by rw [List.length_set, hrxlen]; omega),
      hbody, bget_take, if_pos (by omega), bget_drop]
    congr 1
    omega
  have hbpost : ∀ j, L + 4 ≤ j → j < L + 4 + cfg.W →
      bget buf3 j = bget post (j - (L + 4)) := by
    intro j hj1 hj2
    rw [hbuf3def, bget_setBytes_in post _ (L + 2 + 2) j (by omega) (by omega)
      (by rw [setBytes_length, List.length_set, hrxlen]; omega)]
  clear_value buf3
  have h2b3 : 2 < buf3.length := by rw [hb3len]; omega
  -- step 8: the CRC self-check on the parsed packet evaluates to 0
  have hvslice : (buf3.drop 2).take (L + 2 + cfg.W) = body ++ post := by
    apply list_ext_bget
    · rw [List.length_take, List.length_drop, hb3len]
      simp only [List.length_append, hbodylen, hpostlen]
      omega
    · intro i hi
      rw [List.length_take, List.length_drop, hb3len] at hi
      have hiW : i < L + 2 + cfg.W := by omega
      rw [bget_take, if_pos hiW, bget_drop, bget_append]
      by_cases hcase : i < L + 2
      · rw [if_pos (by omega : i < body.length)]
        rw [hbmid (2 + i) (by omega) (by omega), hbody, bget_take, if_pos hcase, bget_drop]
      · rw [if_neg (by omega : ¬ i < body.length)]
        rw [hbpost (2 + i) (by omega) (by omega)]
        congr 1
        omega
  have hinit' : cfg.init < 2 ^ (8 * cfg.W) := by rw [hn] at hinit; exact hinit
  have hxor' : cfg.xorOut < 2 ^ (8 * cfg.W) := by
    rw [hxor]
    exact Nat.two_pow_pos _
  have hpost' : post =
      bytesBE cfg.W (crcCalculate cfg.polynomial (8 * cfg.W) cfg.init cfg.xorOut body) := by
    rw [hpost, hcdef, hn]
  have hcrc0 : crcCalculate cfg.polynomial (8 * cfg.W) cfg.init cfg.xorOut (body ++ post) = 0 := by
    rw [hpost']
    rw [crcCalculate_selfcheck cfg.polynomial cfg.W cfg.init cfg.xorOut hinit' hxor' body]
    rw [hxor, crcStep_iterate_zero, Nat.zero_xor]
  have hVcrc : TL.CalculatePacketCRCChecksum cfg buf3 kOverheadByteIndex (L + 2 + cfg.W) =
      (0, kCRCChecksumCalculated) := by
    rw [TL.CalculatePacketCRCChecksum]
    rw [if_neg (by simp only [kOverheadByteIndex]; omega)]
    simp only [kOverheadByteIndex]
    rw [hvslice, hcrc0]
  -- step 9: COBS decoding of the received packet
  have hpsb : bget buf3 kPayloadSizeIndex = L := by simp only [kPayloadSizeIndex]; exact hb1
  have hovb : bget buf3 kOverheadByteIndex = O - 2 := by
    simp only [kOverheadByteIndex]
    rw [hbmid 2 (by omega) (by omega)]
    exact e2
  have hg1 : ¬ bget buf3 kPayloadSizeIndex + 2 < 3 := by rw [hpsb]; omega
  have hg2 : ¬ 256 < bget buf3 kPayloadSizeIndex + 2 := by rw [hpsb]; omega
  have hg3 : ¬ buf3.length < bget buf3 kPayloadSizeIndex + kOverheadByteIndex + 2 := by
    rw [hpsb, hb3len]
    simp only [kOverheadByteIndex]
    omega
  have hg4 : ¬ bget buf3 kOverheadByteIndex = 0 := by rw [hovb]; omega
  have hD : DecodePayload buf3 0 =
      decodeLoop 0 (bget buf3 kPayloadSizeIndex + 2 + 1) (bget buf3 kPayloadSizeIndex)
        (bget buf3 kPayloadSizeIndex + kOverheadByteIndex + 2)
        (2 * (bget buf3 kPayloadSizeIndex + kOverheadByteIndex + 2) + 2)
        (buf3.set kOverheadByteIndex 0)
        (kOverheadByteIndex + bget buf3 kOverheadByteIndex) := by
    rw [DecodePayload]
    rw [if_neg hg1, if_neg hg2, if_neg hg3, if_neg hg4]
  rw [hpsb, hovb] at hD
  have hidx2 : (kOverheadByteIndex : Nat) = 2 := rfl
  rw [hidx2] at hD
  have ha1 : L + 2 + 1 = L + 3 := by omega
  have ha2 : L + 2 + 2 = L + 4 := by omega
  have ha3 : 2 + (O - 2) = O := by omega
  rw [ha1, ha2, ha3] at hD
  -- step 10: the virtual pre-encode buffer carrying the payload
  set Bv := setBytes buf3 3 P with hBv
  have hBvlen : Bv.length = buf3.length := by rw [hBv, setBytes_length]
  have hBvin : ∀ j, 3 ≤ j → j < L + 3 → bget Bv j = bget P (j - 3) := by
    intro j hj1 hj2
    rw [hBv]
    exact bget_setBytes_in P buf3 3 j hj1 (by omega) (by rw [hb3len]; omega)
  have hBvout : ∀ j, j < 3 ∨ L + 3 ≤ j → bget Bv j = bget buf3 j := by
    intro j hj
    rw [hBv]
    exact bget_setBytes_out P buf3 3 j (by omega)
  clear_value Bv
  have hBvtx : ∀ j, 3 ≤ j → j < L + 3 → bget Bv j = bget txW j := by
    intro j hj1 hj2
    rw [hBvin j hj1 hj2, hwreg j hj1 (by omega)]
  obtain ⟨RB, hloop, hRBlen, hRBeq, hRB2, hRBd⟩ :=
    decodeLoop_chain Bv L (L + 3) (L + 4) rfl rfl (by rw [hBvlen, hb3len]; omega)
      (2 * (L + 4) + 2) O (buf3.set 2 0)
      (by omega)
      (by
        rcases hOpos with h | h
        · exact Or.inl (by rw [h, hdi])
        · refine Or.inr ⟨hOa, by omega, ?_⟩
          rw [hBvtx O hOa (by omega)]
          exact h.2)
      (by rw [List.length_set, hBvlen])
      (by
        intro j hj
        by_cases hj2 : j = 2
        · subst hj2
          rw [bget_set_self h2b3 0, if_pos rfl]
        · rw [bget_set_ne buf3 (fun hh => hj2 hh.symm) 0, if_neg hj2]
          rcases Nat.lt_or_ge j 3 with hj3 | hj3
          · rw [hBvout j (Or.inl hj3)]
          · rw [hBvtx j hj3 (by omega), hbmid j (by omega) (by omega)]
            exact eKeep j hj3 (by omega) (hOleast j hj3 hj))
      (by
        intro j hj1 hj2 hj3
        rw [bget_set_ne buf3 (by omega) 0]
        rw [hBvtx j (by omega) hj2] at hj3 ⊢
        rw [hbmid j (by omega) (by omega)]
        exact eKeep j (by omega) (by omega) hj3)
      (by
        intro j hj1 hj2 hj3
        rw [bget_set_ne buf3 (by omega) 0]
        have htxj : bget txW j = 0 := by rw [← hBvtx j (by omega) hj2]; exact hj3
        rw [hbmid j (by omega) (by omega)]
        have hdj := eDel j (by omega) (by omega) htxj
        rw [hdi] at hdj
        rw [hdj]
        have hfd : findDelim Bv 0 (j + 1) (L + 3 - (j + 1)) =
            findDelim txW 0 (j + 1) (L + 3 - (j + 1)) := by
          apply findDelim_congr
          intro i hi1 hi2
          exact hBvtx i (by omega) (by omega)
        rw [hfd])
      (by
        rw [bget_set_ne buf3 (by omega) 0, hbmid (L + 3) (by omega) (by omega)]
        exact rZero)
      (by
        intro j hj
        rw [bget_set_ne buf3 (by omega) 0, hBvout j (Or.inr (by omega))])
  rw [hloop] at hD
  -- step 11: ValidatePacket accepts and returns the decoded payload
  have hVP : TL.ValidatePacket cfg buf3 (L + 2 + cfg.W) = (RB, TL.kPacketValidated, L) := by
    rw [TL.ValidatePacket, hVcrc]
    show (if (((0 : Nat), kCRCChecksumCalculated).2 ≠ kCRCChecksumCalculated) then
        (buf3, ((0 : Nat), kCRCChecksumCalculated).2, 0)
      else if (((0 : Nat), kCRCChecksumCalculated).1 ≠ 0) then (buf3, TL.kCRCCheckFailed, 0)
      else
        if (DecodePayload buf3 cfg.delimiter).ret = 0 then
          ((DecodePayload buf3 cfg.delimiter).buffer, (DecodePayload buf3 cfg.delimiter).status, 0)
        else ((DecodePayload buf3 cfg.delimiter).buffer, TL.kPacketValidated,
          (DecodePayload buf3 cfg.delimiter).ret)) = _
    rw [if_neg (by decide : ¬ (((0 : Nat), kCRCChecksumCalculated).2 ≠ kCRCChecksumCalculated))]
    rw [if_neg (by decide : ¬ (((0 : Nat), kCRCChecksumCalculated).1 ≠ 0))]
    rw [hdelim, hD]
    rw [if_neg (show ¬ ((⟨RB, kPayloadDecoded, L⟩ : CobsResult).ret = 0) from by
      show ¬ (L = 0); omega)]
  -- step 12: ReceiveData accepts the stream
  have h2rxs : 2 < (rx0.set 1 0).length := by rw [List.length_set, hrxlen]; omega
  have hrx0' : (rx0.set 1 0).set 2 0 = rx0 := by
    apply list_ext_bget
    · rw [List.length_set, List.length_set]
    · intro i _
      by_cases h2 : i = 2
      · subst h2
        rw [bget_set_self h2rxs 0, hrx0get 2]
      · rw [bget_set_ne _ (fun hh => h2 hh.symm) 0]
        by_cases hone : i = 1
        · subst hone
          rw [bget_set_self h1len 0, hrx0get 1]
        · rw [bget_set_ne _ (fun hh => hone hh.symm) 0]
  have hAvail : TL.Available cfg (F.take (L + 4 + cfg.W)).length = true := by
    rw [hS]
    simp only [TL.Available, TL.kMinimumPacketSize, kOverheadByteIndex, List.length_cons,
      List.length_append, hbodylen, hpostlen, decide_eq_true_eq]
    exact le_trans (Nat.add_le_add_right (Nat.add_le_add_right hMP 2) cfg.W)
      (Nat.le_add_right _ 2)
  have hRD : TL.ReceiveData cfg rx0 (F.take (L + 4 + cfg.W)) =
      (RB, [], TL.kPacketReceived, true) := by
    rw [TL.ReceiveData]
    rw [if_neg (show ¬ ¬ (TL.Available cfg (F.take (L + 4 + cfg.W)).length = true) from
      fun h => h hAvail)]
    rw [show ((rx0.set kPayloadSizeIndex 0).set kOverheadByteIndex 0) = rx0 from hrx0']
    dsimp only
    rw [hPP]
    dsimp only
    rw [if_neg (by omega : ¬ (L + 2 + cfg.W = 0))]
    rw [hVP]
    rw [if_neg (show ¬ (((RB, TL.kPacketValidated, L) : List Nat × Nat × Nat).2.2 = 0) from by
      show ¬ (L = 0); omega)]
  -- step 13: assemble the five conclusions
  refine ⟨ws, ?_, ?_, ?_, ?_⟩
  · rw [hSD]
  · rw [hSD]
    show (TL.ReceiveData cfg rx0 (List.take (L + 4 + cfg.W) F)).2.2.2 = true
    rw [hRD]
  · rw [hSD]
    show bget (TL.ReceiveData cfg rx0 (List.take (L + 4 + cfg.W) F)).1 1 = L
    rw [hRD]
    show bget RB 1 = L
    rw [hRBeq 1 (by omega) (by omega), hBvout 1 (Or.inl (by omega)), hb1]
  · intro j hj
    rw [hSD]
    show bget (TL.ReceiveData cfg rx0 (List.take (L + 4 + cfg.W) F)).1 (3 + j) = bget P j
    rw [hRD]
    show bget RB (3 + j) = bget P j
    rw [hRBeq (3 + j) (by omega) (by omega), hBvin (3 + j) (by omega) (by omega)]
    congr 1
    omega

/-- C2 counterexample: with the delimiter byte configured as 2 (and
everything else well-formed, final XOR 0), the one-byte payload [1] is
sent successfully, yet the receiver rejects the very stream the sender
emitted: the encoded link bytes equal the delimiter value, so the body
loop stops early and `ReceiveData` returns false with
delimiter-found-too-early. -/
theorem claim_C2_counterexample :
    (TL.SendData (⟨4, 4, 1, 1, 7, 0, 0, 129, 2, false⟩ : TL.Config)
      (TL.WriteData (⟨4, 4, 1, 1, 7, 0, 0, 129, 2, false⟩ : TL.Config)
        (TL.initialTxBuffer ⟨4, 4, 1, 1, 7, 0, 0, 129, 2, false⟩) [1] 0).1).2.2.2 = true ∧
    (TL.ReceiveData (⟨4, 4, 1, 1, 7, 0, 0, 129, 2, false⟩ : TL.Config)
      (TL.initialRxBuffer ⟨4, 4, 1, 1, 7, 0, 0, 129, 2, false⟩)
      (TL.SendData (⟨4, 4, 1, 1, 7, 0, 0, 129, 2, false⟩ : TL.Config)
        (TL.WriteData (⟨4, 4, 1, 1, 7, 0, 0, 129, 2, false⟩ : TL.Config)
          (TL.initialTxBuffer ⟨4, 4, 1, 1, 7, 0, 0, 129, 2, false⟩) [1] 0).1).2.2.1).2.2.2 =
      false ∧
    (TL.ReceiveData (⟨4, 4, 1, 1, 7, 0, 0, 129, 2, false⟩ : TL.Config)
      (TL.initialRxBuffer ⟨4, 4, 1, 1, 7, 0, 0, 129, 2, false⟩)
      (TL.SendData (⟨4, 4, 1, 1, 7, 0, 0, 129, 2, false⟩ : TL.Config)
        (TL.WriteData (⟨4, 4, 1, 1, 7, 0, 0, 129, 2, false⟩ : TL.Config)
          (TL.initialTxBuffer ⟨4, 4, 1, 1, 7, 0, 0, 129, 2, false⟩) [1] 0).1).2.2.1).2.2.1 =
      TL.kDelimiterFoundTooEarlyError := by
  decide

/-- C2 witness at the one-byte payload [42] with delimiter 0, a 1-byte
CRC with polynomial 0x07 and final XOR 0. -/
theorem claim_C2_witness :
    (⟨4, 4, 1, 1, 7, 0, 0, 129, 0, false⟩ : TL.Config).delimiter = 0 ∧
    ((TL.WriteData (⟨4, 4, 1, 1, 7, 0, 0, 129, 0, false⟩ : TL.Config)
        (TL.initialTxBuffer ⟨4, 4, 1, 1, 7, 0, 0, 129, 0, false⟩) [42] 0).2.1 =
        TL.kObjectWrittenToBuffer ∧
      (TL.SendData (⟨4, 4, 1, 1, 7, 0, 0, 129, 0, false⟩ : TL.Config)
        (TL.WriteData (⟨4, 4, 1, 1, 7, 0, 0, 129, 0, false⟩ : TL.Config)
          (TL.initialTxBuffer ⟨4, 4, 1, 1, 7, 0, 0, 129, 0, false⟩) [42] 0).1).2.2.2 =
        true ∧
      (TL.ReceiveData (⟨4, 4, 1, 1, 7, 0, 0, 129, 0, false⟩ : TL.Config)
        (TL.initialRxBuffer ⟨4, 4, 1, 1, 7, 0, 0, 129, 0, false⟩)
        (TL.SendData (⟨4, 4, 1, 1, 7, 0, 0, 129, 0, false⟩ : TL.Config)
          (TL.WriteData (⟨4, 4, 1, 1, 7, 0, 0, 129, 0, false⟩ : TL.Config)
            (TL.initialTxBuffer ⟨4, 4, 1, 1, 7, 0, 0, 129, 0, false⟩) [42] 0).1).2.2.1).2.2.2 =
        true ∧
      bget (TL.ReceiveData (⟨4, 4, 1, 1, 7, 0, 0, 129, 0, false⟩ : TL.Config)
        (TL.initialRxBuffer ⟨4, 4, 1, 1, 7, 0, 0, 129, 0, false⟩)
        (TL.SendData (⟨4, 4, 1, 1, 7, 0, 0, 129, 0, false⟩ : TL.Config)
          (TL.WriteData (⟨4, 4, 1, 1, 7, 0, 0, 129, 0, false⟩ : TL.Config)
            (TL.initialTxBuffer ⟨4, 4, 1, 1, 7, 0, 0, 129, 0, false⟩) [42] 0).1).2.2.1).1 1 =
        ([42] : List Nat).length ∧
      ∀ j, j < ([42] : List Nat).length →
        bget (TL.ReceiveData (⟨4, 4, 1, 1, 7, 0, 0, 129, 0, false⟩ : TL.Config)
          (TL.initialRxBuffer ⟨4, 4, 1, 1, 7, 0, 0, 129, 0, false⟩)
          (TL.SendData (⟨4, 4, 1, 1, 7, 0, 0, 129, 0, false⟩ : TL.Config)
            (TL.WriteData (⟨4, 4, 1, 1, 7, 0, 0, 129, 0, false⟩ : TL.Config)
              (TL.initialTxBuffer ⟨4, 4, 1, 1, 7, 0, 0, 129, 0, false⟩) [42] 0).1).2.2.1).1
          (3 + j) = bget [42] j) :=
  ⟨rfl, claim_C2_send_receive_roundtrip ⟨4, 4, 1, 1, 7, 0, 0, 129, 0, false⟩ [42] rfl rfl
    (by decide) (by decide) (by decide) (by decide) (by decide) (by decide) (by decide)
    (by decide)⟩
